import Mathlib

/-!
Verification of the luminaPDF tile-rendering core.

This file gives a shallow embedding of the tile-geometry engine
(`TileManager.ts`), the worker-pool scheduler (`RenderPool.ts`), the tile
cache reconciliation (`TileLayer.tsx`) and the stable-zoom scroll
adjustment (`useZoom.ts`), and proves the documented properties about them.

Numbers are modelled as exact rationals (`ℚ`); JS `Math.floor` / `Math.ceil`
become `Int.floor` / `Int.ceil`; JS `Map`s keyed by strings become
association lists; promise settlement and worker `postMessage` calls become
an explicit list of emitted `PoolAction`s.
-/

namespace LuminaPDF

-- ═════════════════════════════════════════════════════════════════════════
-- Geometry engine: TileManager.ts
-- ═════════════════════════════════════════════════════════════════════════

/-- `Transform {x, y, scale}` — CSS transform mapping world to screen space. -/
structure Transform where
  x : ℚ
  y : ℚ
  scale : ℚ
deriving DecidableEq

/-- A width/height pair, used for both viewport and content sizes. -/
structure Size where
  width : ℚ
  height : ℚ
deriving DecidableEq

/-- `Tile` descriptor emitted by `TileManager.getVisibleTiles`.  The string
`id` field of the source (`page_{p}_lod_{l}_r_{r}_c_{c}`) is determined by
(and injective in) the `(pageIndex, lod, row, col)` fields, so we key tiles
by those fields instead of rebuilding the decimal string. -/
structure Tile where
  pageIndex : ℕ
  row : ℤ
  col : ℤ
  lod : ℚ
  x : ℚ
  y : ℚ
  width : ℚ
  height : ℚ
deriving DecidableEq

/-- `TileManagerConfig`: tile size in LOD pixels, buffer rings, LOD levels. -/
structure TileManagerConfig where
  tileSize : ℚ
  buffer : ℕ
  lodLevels : List ℚ
deriving DecidableEq

/-- The default configuration built by the `TileManager` constructor. -/
def defaultConfig : TileManagerConfig :=
  { tileSize := 256
    buffer := 1
    lodLevels := [1/8, 1/4, 1/2, 3/4, 1, 5/4, 3/2, 2, 3, 4, 6, 8] }

/-- The loop of `getLodForScale`: first LOD level `>= scale`, if any. -/
def firstLevelGE : List ℚ → ℚ → Option ℚ
  | [], _ => none
  | l :: ls, scale => if scale ≤ l then some l else firstLevelGE ls scale

/-- `TileManager.getLodForScale`: first level `>= scale`, else the last
level (`lodLevels[lodLevels.length - 1]`; `0` stands for the out-of-domain
JS `undefined` on an empty level list, which the constructor rules out). -/
def getLodForScale (cfg : TileManagerConfig) (scale : ℚ) : ℚ :=
  match firstLevelGE cfg.lodLevels scale with
  | some l => l
  | none => cfg.lodLevels.getLastD 0

/-- STEP 1 of `getVisibleTiles`: start from the highest level, take the
first level `>= scale` if one exists, then re-clamp to the highest when
`scale` exceeds it (the re-clamp is a no-op, kept for faithfulness). -/
def visibleTilesLod (cfg : TileManagerConfig) (scale : ℚ) : ℚ :=
  let lod :=
    match firstLevelGE cfg.lodLevels scale with
    | some l => l
    | none => cfg.lodLevels.getLastD 0
  if cfg.lodLevels.getLastD 0 < scale then cfg.lodLevels.getLastD 0 else lod

/-- Integer range `[a, b)` as a list, mirroring a JS `for` loop. -/
def intRange (a b : ℤ) : List ℤ :=
  (List.range (b - a).toNat).map (fun (i : ℕ) => a + (i : ℤ))

/-- A rectangle `{x, y, width, height}` as in `TileManager.ts`. -/
structure Rect where
  x : ℚ
  y : ℚ
  width : ℚ
  height : ℚ
deriving DecidableEq

/-- STEPs 2–3 of `getVisibleTiles`: the visible rectangle converted from
screen space to world space (inverse CSS transform) and then to LOD space
(multiplication by the selected LOD). -/
def lodVisibleRect (cfg : TileManagerConfig) (viewport : Size)
    (transform : Transform) : Rect :=
  let scale := transform.scale
  let lod := visibleTilesLod cfg scale
  { x := -transform.x / scale * lod
    y := -transform.y / scale * lod
    width := viewport.width / scale * lod
    height := viewport.height / scale * lod }

/-- STEP 4: `startCol = Math.floor(lodX / tileSize) - buffer`. -/
def tmStartCol (cfg : TileManagerConfig) (viewport : Size) (transform : Transform) : ℤ :=
  ⌊(lodVisibleRect cfg viewport transform).x / cfg.tileSize⌋ - cfg.buffer

/-- STEP 4: `endCol = Math.ceil((lodX + lodW) / tileSize) + buffer`. -/
def tmEndCol (cfg : TileManagerConfig) (viewport : Size) (transform : Transform) : ℤ :=
  let r := lodVisibleRect cfg viewport transform
  ⌈(r.x + r.width) / cfg.tileSize⌉ + cfg.buffer

/-- STEP 4: `startRow = Math.floor(lodY / tileSize) - buffer`. -/
def tmStartRow (cfg : TileManagerConfig) (viewport : Size) (transform : Transform) : ℤ :=
  ⌊(lodVisibleRect cfg viewport transform).y / cfg.tileSize⌋ - cfg.buffer

/-- STEP 4: `endRow = Math.ceil((lodY + lodH) / tileSize) + buffer`. -/
def tmEndRow (cfg : TileManagerConfig) (viewport : Size) (transform : Transform) : ℤ :=
  let r := lodVisibleRect cfg viewport transform
  ⌈(r.y + r.height) / cfg.tileSize⌉ + cfg.buffer

/-- Content bounds in tile-grid units:
`maxCols = Math.ceil(contentSize.width * lod / tileSize)`. -/
def tmMaxCols (cfg : TileManagerConfig) (transform : Transform) (contentSize : Size) : ℤ :=
  ⌈contentSize.width * visibleTilesLod cfg transform.scale / cfg.tileSize⌉

/-- Content bounds in tile-grid units:
`maxRows = Math.ceil(contentSize.height * lod / tileSize)`. -/
def tmMaxRows (cfg : TileManagerConfig) (transform : Transform) (contentSize : Size) : ℤ :=
  ⌈contentSize.height * visibleTilesLod cfg transform.scale / cfg.tileSize⌉

/-- STEP 5: the `Tile` object emitted for a surviving `(row, col)` cell.
A tile covers `tileSize / lod` world units. -/
def tileAt (cfg : TileManagerConfig) (transform : Transform) (pageIndex : ℕ)
    (row col : ℤ) : Tile :=
  let lod := visibleTilesLod cfg transform.scale
  let tileWorldSize := cfg.tileSize / lod
  { pageIndex := pageIndex
    row := row
    col := col
    lod := lod
    x := col * tileWorldSize
    y := row * tileWorldSize
    width := tileWorldSize
    height := tileWorldSize }

/-- `TileManager.getVisibleTiles`: LOD selection, screen → world → LOD
space conversion, tile-grid index computation with `buffer` expansion,
culling to content bounds, and tile emission. -/
def getVisibleTiles (cfg : TileManagerConfig) (viewport : Size)
    (transform : Transform) (contentSize : Size) (pageIndex : ℕ) : List Tile :=
  let startCol := tmStartCol cfg viewport transform
  let endCol := tmEndCol cfg viewport transform
  let startRow := tmStartRow cfg viewport transform
  let endRow := tmEndRow cfg viewport transform
  let maxCols := tmMaxCols cfg transform contentSize
  let maxRows := tmMaxRows cfg transform contentSize
  (intRange startRow endRow).flatMap (fun row =>
    ((intRange startCol endCol).filter (fun col =>
        ¬(col < 0 ∨ maxCols ≤ col ∨ row < 0 ∨ maxRows ≤ row))).map
      (fun col => tileAt cfg transform pageIndex row col))

-- ═════════════════════════════════════════════════════════════════════════
-- Tiling of the clipped expanded visible rectangle (claim C1)
-- ═════════════════════════════════════════════════════════════════════════

/-- Left edge (LOD space) of the visible rectangle expanded by `buffer`
rings of tiles, clipped to the content bounds. -/
def clipLeft (cfg : TileManagerConfig) (viewport : Size) (transform : Transform) : ℚ :=
  max ((lodVisibleRect cfg viewport transform).x - cfg.buffer * cfg.tileSize) 0

/-- Right edge (LOD space) of the expanded visible rectangle clipped to
the content bounds (`contentSize.width * lod`). -/
def clipRight (cfg : TileManagerConfig) (viewport : Size) (transform : Transform)
    (contentSize : Size) : ℚ :=
  let r := lodVisibleRect cfg viewport transform
  min (r.x + r.width + cfg.buffer * cfg.tileSize)
    (contentSize.width * visibleTilesLod cfg transform.scale)

/-- Top edge (LOD space) of the clipped expanded visible rectangle. -/
def clipTop (cfg : TileManagerConfig) (viewport : Size) (transform : Transform) : ℚ :=
  max ((lodVisibleRect cfg viewport transform).y - cfg.buffer * cfg.tileSize) 0

/-- Bottom edge (LOD space) of the clipped expanded visible rectangle. -/
def clipBottom (cfg : TileManagerConfig) (viewport : Size) (transform : Transform)
    (contentSize : Size) : ℚ :=
  let r := lodVisibleRect cfg viewport transform
  min (r.y + r.height + cfg.buffer * cfg.tileSize)
    (contentSize.height * visibleTilesLod cfg transform.scale)

-- ═════════════════════════════════════════════════════════════════════════
-- Worker-pool scheduler: RenderPool.ts
-- ═════════════════════════════════════════════════════════════════════════

/-- Observable effects of the scheduler: promise settlements, bitmap
releases (`bitmap.close()`), and `postMessage` calls to workers.  Promises
and bitmaps are identified by numeric handles. -/
inductive PoolAction where
  | resolveLoad (promiseId : ℕ) (width height : ℚ)
  | rejectLoad (promiseId : ℕ) (error : String)
  | resolveTile (promiseId : ℕ) (bitmap : ℕ)
  | rejectTile (promiseId : ℕ) (error : String)
  | closeBitmap (bitmap : ℕ)
  | postLoad (workerIndex : ℕ) (url : String)
  | postRender (workerIndex : ℕ) (tileId : String)
deriving DecidableEq

/-- Error message used by `handleDocumentError` when the worker reports none. -/
def unknownWorkerError : String := "Unknown worker error"

/-- Error message used by `loadDocument` to reject a superseded barrier. -/
def loadCancelledError : String := "Load cancelled by new request"

/-- Error message used by `handleTileError` when the worker reports none. -/
def tileRenderFailedError : String := "Tile render failed"

/-- `PendingDocumentLoad`: the document-load barrier state. -/
structure PendingLoad where
  promiseId : ℕ
  loadedCount : ℕ
  dimensions : Option (ℚ × ℚ)
  rejected : Bool
deriving DecidableEq

/-- `PendingTileJob`: an entry of the `jobQueue` map, keyed by `tile.id`. -/
structure PendingTileJob where
  id : String
  promiseId : ℕ
  workerIndex : ℕ
deriving DecidableEq

/-- The mutable state of a `RenderPool` instance.  `jobQueue` models the JS
`Map<string, PendingTileJob>` as an association list keyed by `id`;
`nextPromise` is a fresh-handle counter for the promises the pool creates. -/
structure PoolState where
  maxWorkers : ℕ
  jobQueue : List PendingTileJob
  workerRoundRobin : ℕ
  pendingLoad : Option PendingLoad
  nextPromise : ℕ
deriving DecidableEq

/-- Pool state right after the constructor ran. -/
def initialPoolState (maxWorkers : ℕ) : PoolState :=
  { maxWorkers := maxWorkers
    jobQueue := []
    workerRoundRobin := 0
    pendingLoad := none
    nextPromise := 0 }

/-- `jobQueue.get(id)`. -/
def getJob (q : List PendingTileJob) (id : String) : Option PendingTileJob :=
  q.find? (fun j => j.id = id)

/-- `jobQueue.set(j.id, j)`: overwrite the entry with the same key in
place, or append a new entry. -/
def setJob (q : List PendingTileJob) (j : PendingTileJob) : List PendingTileJob :=
  if (getJob q j.id).isSome then
    q.map (fun j0 => if j0.id = j.id then j else j0)
  else q ++ [j]

/-- `jobQueue.delete(id)`. -/
def delJob (q : List PendingTileJob) (id : String) : List PendingTileJob :=
  q.filter (fun j => j.id ≠ id)

/-- The dimension bookkeeping of `handleDocumentLoaded`: store the first
successful worker's dimensions (`if (!dimensions && width !== undefined &&
height !== undefined)`). -/
def updateDimensions (pl : PendingLoad) (width height : Option ℚ) : PendingLoad :=
  match pl.dimensions, width, height with
  | none, some w, some h => { pl with dimensions := some (w, h) }
  | _, _, _ => pl

/-- `RenderPool.handleDocumentLoaded`: count the acknowledgement, keep the
first reported dimensions, and resolve the barrier once `loadedCount`
reaches the pool size. -/
def handleDocumentLoaded (s : PoolState) (width height : Option ℚ) :
    PoolState × List PoolAction :=
  match s.pendingLoad with
  | none => (s, [])
  | some pl =>
    let pl2 := updateDimensions { pl with loadedCount := pl.loadedCount + 1 } width height
    if s.maxWorkers ≤ pl2.loadedCount then
      let dims := pl2.dimensions.getD (612, 792)
      ({ s with pendingLoad := none }, [PoolAction.resolveLoad pl2.promiseId dims.1 dims.2])
    else
      ({ s with pendingLoad := some pl2 }, [])

/-- `RenderPool.handleDocumentError`: reject the barrier on the first
worker failure; later messages find no pending load and are ignored. -/
def handleDocumentError (s : PoolState) (error : Option String) :
    PoolState × List PoolAction :=
  match s.pendingLoad with
  | none => (s, [])
  | some pl =>
    if pl.rejected then (s, [])
    else
      ({ s with pendingLoad := none },
       [PoolAction.rejectLoad pl.promiseId (error.getD unknownWorkerError)])

/-- `RenderPool.handleTileReady`: resolve and delete the matching job, or
release the bitmap at once when the job was cancelled. -/
def handleTileReady (s : PoolState) (id : String) (bitmap : ℕ) :
    PoolState × List PoolAction :=
  match getJob s.jobQueue id with
  | some job =>
    ({ s with jobQueue := delJob s.jobQueue id }, [PoolAction.resolveTile job.promiseId bitmap])
  | none => (s, [PoolAction.closeBitmap bitmap])

/-- `RenderPool.handleTileError`: reject and delete the matching job. -/
def handleTileError (s : PoolState) (id : String) (error : Option String) :
    PoolState × List PoolAction :=
  match getJob s.jobQueue id with
  | some job =>
    ({ s with jobQueue := delJob s.jobQueue id },
     [PoolAction.rejectTile job.promiseId (error.getD tileRenderFailedError)])
  | none => (s, [])

/-- `RenderPool.loadDocument`: reject any outstanding barrier with the
supersession error, install a fresh barrier, and broadcast `LOAD_DOCUMENT`
to every worker.  Returns the new state, the new promise handle, and the
emitted actions in program order (rejection strictly before broadcast). -/
def loadDocument (s : PoolState) (url : String) : PoolState × ℕ × List PoolAction :=
  let cancel :=
    match s.pendingLoad with
    | some pl =>
      if pl.rejected then [] else [PoolAction.rejectLoad pl.promiseId loadCancelledError]
    | none => []
  let p := s.nextPromise
  let s1 := { s with
    pendingLoad := some { promiseId := p, loadedCount := 0, dimensions := none, rejected := false }
    nextPromise := p + 1 }
  (s1, p, cancel ++ (List.range s.maxWorkers).map (fun i => PoolAction.postLoad i url))

/-- `RenderPool.renderTile`: pick the round-robin worker, advance the
cursor modulo the pool size, register the job under `tile.id`
(overwriting any entry with the same id), and post `RENDER_TILE`. -/
def renderTile (s : PoolState) (tileId : String) : PoolState × ℕ × List PoolAction :=
  let workerIndex := s.workerRoundRobin
  let p := s.nextPromise
  let s1 := { s with
    workerRoundRobin := (s.workerRoundRobin + 1) % s.maxWorkers
    jobQueue := setJob s.jobQueue { id := tileId, promiseId := p, workerIndex := workerIndex }
    nextPromise := p + 1 }
  (s1, p, [PoolAction.postRender workerIndex tileId])

/-- `RenderPool.cancelTile`: purely logical removal of the job entry; the
worker is not told to stop. -/
def cancelTile (s : PoolState) (tileId : String) : PoolState × List PoolAction :=
  match getJob s.jobQueue tileId with
  | some _ => ({ s with jobQueue := delJob s.jobQueue tileId }, [])
  | none => (s, [])

/-- Events driving the pool: public API calls and inbound worker messages. -/
inductive PoolEvent where
  | loadDoc (url : String)
  | renderTileCall (tileId : String)
  | cancelTileCall (tileId : String)
  | documentLoaded (width height : Option ℚ)
  | documentError (error : Option String)
  | tileReady (id : String) (bitmap : ℕ)
  | tileError (id : String) (error : Option String)
deriving DecidableEq

/-- One step of the pool state machine. -/
def stepEvent (s : PoolState) : PoolEvent → PoolState × List PoolAction
  | .loadDoc url =>
    let r := loadDocument s url
    (r.1, r.2.2)
  | .renderTileCall id =>
    let r := renderTile s id
    (r.1, r.2.2)
  | .cancelTileCall id => cancelTile s id
  | .documentLoaded w h => handleDocumentLoaded s w h
  | .documentError e => handleDocumentError s e
  | .tileReady id bmp => handleTileReady s id bmp
  | .tileError id e => handleTileError s id e

/-- Run a list of events, collecting the emitted actions in order. -/
def runEvents (s : PoolState) : List PoolEvent → PoolState × List PoolAction
  | [] => (s, [])
  | e :: es =>
    let r1 := stepEvent s e
    let r2 := runEvents r1.1 es
    (r2.1, r1.2 ++ r2.2)

/-- The promise handle an action settles, if any. -/
def PoolAction.promiseOf : PoolAction → Option ℕ
  | .resolveLoad p _ _ => some p
  | .rejectLoad p _ => some p
  | .resolveTile p _ => some p
  | .rejectTile p _ => some p
  | .closeBitmap _ => none
  | .postLoad _ _ => none
  | .postRender _ _ => none

/-- Is this event an inbound document-load message? -/
def isDocMessage : PoolEvent → Bool
  | .documentLoaded _ _ => true
  | .documentError _ => true
  | _ => false

/-- Is this event a `DOCUMENT_ERROR` message? -/
def isDocError : PoolEvent → Bool
  | .documentError _ => true
  | _ => false

/-- Number of `DOCUMENT_LOADED` messages in an event list. -/
def countLoaded (es : List PoolEvent) : ℕ :=
  es.countP (fun e =>
    match e with
    | .documentLoaded _ _ => true
    | _ => false)

/-- Is this action a `RENDER_TILE` post to worker `w`? -/
def isPostRenderTo (w : ℕ) : PoolAction → Bool
  | PoolAction.postRender wi _ => wi == w
  | _ => false

/-- Well-formedness of a pool state: every promise handle stored in the
state was created by the `nextPromise` counter, hence is below it.  Holds
for `initialPoolState` and is preserved by every event. -/
def PoolWF (s : PoolState) : Prop :=
  (∀ j ∈ s.jobQueue, j.promiseId < s.nextPromise) ∧
  (∀ pl, s.pendingLoad = some pl → pl.promiseId < s.nextPromise)

/-- Promise handle `p` does not occur anywhere in the state and is stale
(below the fresh counter), so no later event can settle it. -/
def promiseAbsent (s : PoolState) (p : ℕ) : Prop :=
  (∀ j ∈ s.jobQueue, j.promiseId ≠ p) ∧
  (∀ pl, s.pendingLoad = some pl → pl.promiseId ≠ p) ∧
  p < s.nextPromise

/-- A sample document URL used by concrete witnesses. -/
def sampleUrl : String := "doc.pdf"

/-- A sample tile id used by concrete witnesses. -/
def sampleTileId : String := "page_0_lod_1_r_0_c_0"

/-- Sample tile ids for the round-robin witness: 7 jobs. -/
def sampleTileIds : List String :=
  ["t0", "t1", "t2", "t3", "t4", "t5", "t6"]

/-- A sample inbound message sequence for a pool of 4 workers: three
`DOCUMENT_LOADED` acknowledgements and one `DOCUMENT_ERROR`. -/
def sampleDocEvents : List PoolEvent :=
  [PoolEvent.documentLoaded (some 612) (some 792),
   PoolEvent.documentLoaded none none,
   PoolEvent.documentError none,
   PoolEvent.documentLoaded (some 612) (some 792)]

-- ═════════════════════════════════════════════════════════════════════════
-- Tile cache reconciliation: TileLayer.tsx
-- ═════════════════════════════════════════════════════════════════════════

/-- The cache key of a tile: the fields its id string
`page_{p}_lod_{l}_r_{r}_c_{c}` is built from (the string is injective in
these fields). -/
def TileKey : Type := ℕ × ℚ × ℤ × ℤ
deriving DecidableEq

/-- Key of a `Tile`. -/
def Tile.key (t : Tile) : TileKey := (t.pageIndex, t.lod, t.row, t.col)

/-- `CachedTile`: a tile plus its render state (`isReady`). -/
structure CachedTile extends Tile where
  isReady : Bool
deriving DecidableEq

/-- Key of a `CachedTile`. -/
def CachedTile.key (ct : CachedTile) : TileKey := ct.toTile.key

/-- Step 1 of `tilesToRender`: insert every visible tile missing from the
cache as an `isReady = false` placeholder (`cache.set(tile.id, ...)`),
preserving insertion order. -/
def insertVisible : List CachedTile → List Tile → List CachedTile
  | c, [] => c
  | c, t :: ts =>
    insertVisible
      (if c.any (fun ct => ct.key = t.key) then c
       else c ++ [{ toTile := t, isReady := false }]) ts

/-- The overlap test of step 2: the cached tile's world rectangle against
the visible world rectangle expanded by `bufferZone = tileWidth * buffer`
(the *cached tile's own* world width). -/
def overlapsExpanded (ct : CachedTile) (viewportTransform : Transform)
    (viewportSize : Size) (buffer : ℚ) : Bool :=
  let tileWorldX := ct.x
  let tileWorldY := ct.y
  let tileWorldW := ct.width
  let tileWorldH := ct.height
  let visibleWorldX := -viewportTransform.x / viewportTransform.scale
  let visibleWorldY := -viewportTransform.y / viewportTransform.scale
  let visibleWorldW := viewportSize.width / viewportTransform.scale
  let visibleWorldH := viewportSize.height / viewportTransform.scale
  let bufferZone := tileWorldW * buffer
  let expandedX := visibleWorldX - bufferZone
  let expandedY := visibleWorldY - bufferZone
  let expandedW := visibleWorldW + bufferZone * 2
  let expandedH := visibleWorldH + bufferZone * 2
  decide (¬(tileWorldX + tileWorldW < expandedX ∨ tileWorldX > expandedX + expandedW ∨
    tileWorldY + tileWorldH < expandedY ∨ tileWorldY > expandedY + expandedH))

/-- `currentLod` of the `TileLayer`: LOD of the first visible tile, `1`
when no tile is visible. -/
def layerCurrentLod (visibleTiles : List Tile) : ℚ :=
  match visibleTiles with
  | [] => 1
  | t :: _ => t.lod

/-- Keys of the current visible set (`visibleTileIds`). -/
def visibleKeysOf (visibleTiles : List Tile) : List TileKey :=
  visibleTiles.map Tile.key

/-- Step 2's retention test for a cached tile: not currently visible,
strictly lower LOD than the current one, overlapping the expanded visible
area, and already rendered (`overlaps && cachedTile.isReady`). -/
def placeholderPred (visibleKeys : List TileKey) (currentLod : ℚ)
    (viewportTransform : Transform) (viewportSize : Size) (buffer : ℚ)
    (ct : CachedTile) : Bool :=
  decide (ct.key ∉ visibleKeys) && decide (ct.lod < currentLod) &&
    (overlapsExpanded ct viewportTransform viewportSize buffer && ct.isReady)

/-- Insertion into a list kept ascending by `lod`. -/
def insertByLod (t : CachedTile) : List CachedTile → List CachedTile
  | [] => [t]
  | u :: us => if t.lod ≤ u.lod then t :: u :: us else u :: insertByLod t us

/-- Sort ascending by `lod` (painter's algorithm: low LOD first). -/
def sortByLod : List CachedTile → List CachedTile
  | [] => []
  | t :: ts => insertByLod t (sortByLod ts)

/-- `TileLayer`'s `tilesToRender` reconciliation pass.  Returns the list
handed to presentation (sorted ascending by LOD) and the pruned cache:
1. add all currently visible tiles to the cache;
2. retain ready lower-LOD tiles overlapping the expanded visible area;
3. prune every other cache entry. -/
def tilesToRender (cache : List CachedTile) (visibleTiles : List Tile)
    (viewportTransform : Transform) (viewportSize : Size) (buffer : ℚ) :
    List CachedTile × List CachedTile :=
  let c1 := insertVisible cache visibleTiles
  let currentLod := layerCurrentLod visibleTiles
  let visibleKeys := visibleKeysOf visibleTiles
  let result := visibleTiles.filterMap (fun t => c1.find? (fun ct => ct.key = t.key))
  let placeholders := c1.filter
    (placeholderPred visibleKeys currentLod viewportTransform viewportSize buffer)
  let keep := visibleKeys ++ placeholders.map CachedTile.key
  let newCache := c1.filter (fun ct => ct.key ∈ keep)
  (sortByLod (placeholders ++ result), newCache)

/-- A ready LOD-1 cached tile covering the world square `[0,256]²`
(concrete C5 scenario). -/
def sampleLowerTile : CachedTile :=
  { toTile := { pageIndex := 0, row := 0, col := 0, lod := 1, x := 0, y := 0,
                width := 256, height := 256 }
    isReady := true }

/-- A visible LOD-2 tile covering the world square `[0,128]²`
(concrete C5 scenario). -/
def sampleVisibleTile : Tile :=
  { pageIndex := 0, row := 0, col := 0, lod := 2, x := 0, y := 0,
    width := 128, height := 128 }

-- ═════════════════════════════════════════════════════════════════════════
-- Stable zoom: useZoom.ts (adjustScrollForZoom)
-- ═════════════════════════════════════════════════════════════════════════

/-- The three zoom request kinds of `useZoom`. -/
inductive ZoomMode where
  | center
  | focalPoint
  | fitToScreen
deriving DecidableEq

/-- The DOM quantities `adjustScrollForZoom` reads from the scroll
container: scroll position, client size, scroll width and the bounding
rectangle's top-left corner. -/
structure ScrollContainer where
  scrollLeft : ℚ
  scrollTop : ℚ
  clientWidth : ℚ
  clientHeight : ℚ
  scrollWidth : ℚ
  rectLeft : ℚ
  rectTop : ℚ
deriving DecidableEq

/-- What `adjustScrollForZoom` reads from `contentRef.current` when it is
set: the computed `margin-left` and the on-screen `offsetWidth` (which
includes the scale transform). -/
structure ContentInfo where
  marginLeft : ℚ
  offsetWidth : ℚ
deriving DecidableEq

/-- `adjustScrollForZoom` of `useZoom.ts` as a pure function from the DOM
readings to the `scrollTo` target `(left, top)`:
`FIT_TO_SCREEN` scrolls to the origin; otherwise the focal point (given
screen point in `FOCAL_POINT` mode, viewport centre otherwise) is mapped
into content coordinates, scaled by `newScale / oldScale`, corrected for
the centering margin change on the x axis (subtract the pre-zoom margin,
add the estimated post-zoom margin), and clamped at `0`. -/
def adjustScrollForZoom (container : ScrollContainer) (content : Option ContentInfo)
    (mode : ZoomMode) (oldScale newScale : ℚ)
    (focalPoint : Option (ℚ × ℚ)) : ℚ × ℚ :=
  if mode = ZoomMode.fitToScreen then (0, 0)
  else
    let focalScreen : ℚ × ℚ :=
      match mode, focalPoint with
      | ZoomMode.focalPoint, some fp => fp
      | _, _ => (container.rectLeft + container.clientWidth / 2,
                 container.rectTop + container.clientHeight / 2)
    let focalOffsetX := focalScreen.1 - container.rectLeft
    let focalOffsetY := focalScreen.2 - container.rectTop
    let ratio := newScale / oldScale
    let pointInContentX := container.scrollLeft + focalOffsetX
    let pointInContentY := container.scrollTop + focalOffsetY
    let newPointInContentY := pointInContentY * ratio
    let newScrollTop := newPointInContentY - focalOffsetY
    let oldMarginLeft :=
      match content with
      | some ci => ci.marginLeft
      | none => 0
    let newMarginLeft :=
      match content with
      | some ci =>
        if ci.offsetWidth * ratio < container.clientWidth then
          (container.clientWidth - ci.offsetWidth * ratio) / 2
        else 0
      | none => 0
    let realDocX := pointInContentX - oldMarginLeft
    let newRealDocX := realDocX * ratio
    let correctedScrollLeft := newMarginLeft + newRealDocX - focalOffsetX
    (max 0 correctedScrollLeft, max 0 newScrollTop)

/-- Screen coordinate of the world point `w` on one axis under the
container layout: content offset by its centering margin, scaled by the
zoom, and shifted by the scroll
(`screen = rectStart + margin + w * scale - scroll`). -/
def screenCoord (rectStart margin scale scroll w : ℚ) : ℚ :=
  rectStart + margin + w * scale - scroll

theorem mem_intRange {a b z : ℤ} : z ∈ intRange a b ↔ a ≤ z ∧ z < b := by
  unfold intRange
  simp only [List.mem_map, List.mem_range]
  constructor
  · rintro ⟨i, hi, rfl⟩
    omega
  · intro ⟨h1, h2⟩
    exact ⟨(z - a).toNat, by omega, by omega⟩

/-- Membership characterisation for `getVisibleTiles`: exactly the cells of
the buffered index window that survive culling, emitted via `tileAt`. -/
theorem mem_getVisibleTiles {cfg : TileManagerConfig} {viewport : Size}
    {transform : Transform} {contentSize : Size} {pageIndex : ℕ} {t : Tile} :
    t ∈ getVisibleTiles cfg viewport transform contentSize pageIndex ↔
    ∃ row col : ℤ,
      tmStartRow cfg viewport transform ≤ row ∧ row < tmEndRow cfg viewport transform ∧
      tmStartCol cfg viewport transform ≤ col ∧ col < tmEndCol cfg viewport transform ∧
      0 ≤ col ∧ col < tmMaxCols cfg transform contentSize ∧
      0 ≤ row ∧ row < tmMaxRows cfg transform contentSize ∧
      t = tileAt cfg transform pageIndex row col := by
  unfold getVisibleTiles
  simp only [List.mem_flatMap, List.mem_map, List.mem_filter, mem_intRange,
    decide_eq_true_eq, not_or, not_lt, not_le]
  constructor
  · rintro ⟨row, ⟨hr1, hr2⟩, col, ⟨⟨hc1, hc2⟩, h0c, hcm, h0r, hrm⟩, rfl⟩
    exact ⟨row, col, hr1, hr2, hc1, hc2, h0c, hcm, h0r, hrm, rfl⟩
  · rintro ⟨row, col, hr1, hr2, hc1, hc2, h0c, hcm, h0r, hrm, rfl⟩
    exact ⟨row, ⟨hr1, hr2⟩, col, ⟨⟨hc1, hc2⟩, h0c, hcm, h0r, hrm⟩, rfl⟩

/-- One-dimensional core of the tiling argument: inside the buffered window
`[a - b·ts, a + w + b·ts]` clipped to `[0, c]` (assumed of positive
extent), every point is covered by a grid cell `k` that the index window
`[⌊a/ts⌋ - b, ⌈(a+w)/ts⌉ + b)` retains and culling `[0, ⌈c/ts⌉)` keeps. -/
theorem grid_cover_1d (ts a w c : ℚ) (b : ℕ) (p : ℚ) (hts : 0 < ts)
    (hlo : max (a - b * ts) 0 ≤ p) (hhi : p ≤ min (a + w + b * ts) c)
    (hne : max (a - b * ts) 0 < min (a + w + b * ts) c) :
    ∃ k : ℤ, ⌊a / ts⌋ - b ≤ k ∧ k < ⌈(a + w) / ts⌉ + b ∧
      0 ≤ k ∧ k < ⌈c / ts⌉ ∧ (k : ℚ) * ts ≤ p ∧ p ≤ ((k : ℚ) + 1) * ts := by
  have hts' : ts ≠ 0 := ne_of_gt hts
  have h0p : (0 : ℚ) ≤ p := le_trans (le_max_right _ _) hlo
  have haBp : a - b * ts ≤ p := le_trans (le_max_left _ _) hlo
  have hpc : p ≤ c := le_trans hhi (min_le_right _ _)
  have hpawB : p ≤ a + w + b * ts := le_trans hhi (min_le_left _ _)
  have hlt1 : a - b * ts < a + w + b * ts :=
    lt_of_le_of_lt (le_max_left _ _) (lt_of_lt_of_le hne (min_le_left _ _))
  have hlt2 : a - b * ts < c :=
    lt_of_le_of_lt (le_max_left _ _) (lt_of_lt_of_le hne (min_le_right _ _))
  have h0aw : (0 : ℚ) < a + w + b * ts :=
    lt_of_le_of_lt (le_max_right _ _) (lt_of_lt_of_le hne (min_le_left _ _))
  have h0c : (0 : ℚ) < c :=
    lt_of_le_of_lt (le_max_right _ _) (lt_of_lt_of_le hne (min_le_right _ _))
  -- division identities for the buffered edges
  have had : (a - b * ts) / ts = a / ts - b := by
    rw [sub_div, mul_div_cancel_right₀ _ hts']
  have hawd : (a + w + b * ts) / ts = (a + w) / ts + b := by
    rw [add_div, mul_div_cancel_right₀ _ hts']
  -- grid quantities
  have hsCle_f : ⌊a / ts⌋ - (b : ℤ) ≤ ⌊p / ts⌋ := by
    have h1 : a / ts - b ≤ p / ts := by
      rw [← had]; exact (div_le_div_iff_of_pos_right hts).mpr haBp
    have h2 : ⌊a / ts - (b : ℤ)⌋ ≤ ⌊p / ts⌋ := Int.floor_mono (by push_cast; exact h1)
    rwa [Int.floor_sub_int] at h2
  have hsC_lt_eC : ⌊a / ts⌋ - (b : ℤ) < ⌈(a + w) / ts⌉ + b := by
    have h1 : a / ts - b < (a + w) / ts + b := by
      rw [← had, ← hawd]; exact (div_lt_div_iff_of_pos_right hts).mpr hlt1
    have h2 : ((⌊a / ts⌋ - (b : ℤ) : ℤ) : ℚ) < ((⌈(a + w) / ts⌉ + b : ℤ) : ℚ) := by
      push_cast
      calc ((⌊a / ts⌋ : ℚ)) - b ≤ a / ts - b := by
            have := Int.floor_le (a / ts); linarith
      _ < (a + w) / ts + b := h1
      _ ≤ ⌈(a + w) / ts⌉ + b := by
            have := Int.le_ceil ((a + w) / ts); linarith
    exact_mod_cast h2
  have hsC_lt_mC : ⌊a / ts⌋ - (b : ℤ) < ⌈c / ts⌉ := by
    have h1 : a / ts - b < c / ts := by
      rw [← had]; exact (div_lt_div_iff_of_pos_right hts).mpr hlt2
    have h2 : ((⌊a / ts⌋ - (b : ℤ) : ℤ) : ℚ) < ((⌈c / ts⌉ : ℤ) : ℚ) := by
      push_cast
      calc ((⌊a / ts⌋ : ℚ)) - b ≤ a / ts - b := by
            have := Int.floor_le (a / ts); linarith
      _ < c / ts := h1
      _ ≤ ⌈c / ts⌉ := Int.le_ceil _
    exact_mod_cast h2
  have h0f : (0 : ℤ) ≤ ⌊p / ts⌋ := Int.floor_nonneg.mpr (div_nonneg h0p hts.le)
  have h0eC : (0 : ℤ) < ⌈(a + w) / ts⌉ + b := by
    have h1 : (0 : ℚ) < (a + w) / ts + b := by
      rw [← hawd]; exact div_pos h0aw hts
    have h2 : ((0 : ℤ) : ℚ) < ((⌈(a + w) / ts⌉ + b : ℤ) : ℚ) := by
      push_cast
      calc (0 : ℚ) < (a + w) / ts + b := h1
      _ ≤ ⌈(a + w) / ts⌉ + b := by
            have := Int.le_ceil ((a + w) / ts); linarith
    exact_mod_cast h2
  have h0mC : (0 : ℤ) < ⌈c / ts⌉ := Int.ceil_pos.mpr (div_pos h0c hts)
  -- the covering cell
  refine ⟨min (min ⌊p / ts⌋ (⌈(a + w) / ts⌉ + b - 1)) (⌈c / ts⌉ - 1),
    by omega, by omega, by omega, by omega, ?_, ?_⟩
  · -- k * ts ≤ p
    have hk_le_f : min (min ⌊p / ts⌋ (⌈(a + w) / ts⌉ + b - 1)) (⌈c / ts⌉ - 1) ≤ ⌊p / ts⌋ := by
      omega
    have h1 : ((min (min ⌊p / ts⌋ (⌈(a + w) / ts⌉ + b - 1)) (⌈c / ts⌉ - 1) : ℤ) : ℚ) ≤ p / ts :=
      le_trans (by exact_mod_cast hk_le_f) (Int.floor_le _)
    exact (le_div_iff₀ hts).mp h1
  · -- p ≤ (k + 1) * ts
    have hub1 : p / ts < (⌊p / ts⌋ : ℚ) + 1 := Int.lt_floor_add_one _
    have hub2 : p / ts ≤ ((⌈(a + w) / ts⌉ + (b : ℤ) : ℤ) : ℚ) := by
      have h1 : p / ts ≤ (a + w) / ts + b := by
        rw [← hawd]; exact (div_le_div_iff_of_pos_right hts).mpr hpawB
      push_cast
      have := Int.le_ceil ((a + w) / ts); linarith
    have hub3 : p / ts ≤ ((⌈c / ts⌉ : ℤ) : ℚ) := by
      have h1 : p / ts ≤ c / ts := (div_le_div_iff_of_pos_right hts).mpr hpc
      exact le_trans h1 (Int.le_ceil _)
    have hk3 : min (min ⌊p / ts⌋ (⌈(a + w) / ts⌉ + b - 1)) (⌈c / ts⌉ - 1) = ⌊p / ts⌋ ∨
        min (min ⌊p / ts⌋ (⌈(a + w) / ts⌉ + b - 1)) (⌈c / ts⌉ - 1) = ⌈(a + w) / ts⌉ + b - 1 ∨
        min (min ⌊p / ts⌋ (⌈(a + w) / ts⌉ + b - 1)) (⌈c / ts⌉ - 1) = ⌈c / ts⌉ - 1 := by
      omega
    have hgoal : p / ts ≤ ((min (min ⌊p / ts⌋ (⌈(a + w) / ts⌉ + b - 1)) (⌈c / ts⌉ - 1) : ℤ) : ℚ) + 1 := by
      rcases hk3 with hk | hk | hk <;> rw [hk] <;> push_cast
      · linarith
      · have := hub2; push_cast at this; linarith
      · have := hub3; push_cast at this; linarith
    have := (div_le_iff₀ hts).mp hgoal
    linarith

/-- **C1.** The tiles returned by `getVisibleTiles` exactly and losslessly
tile the expanded visible rectangle (screen-to-world projection of the
viewport converted to LOD space, grown by `buffer` rings of tiles) clipped
to the content bounds: (bounds) every emitted tile's `(row, col)` lies
inside `[0, maxRows) × [0, maxCols)` with
`maxCols = ⌈contentSize.width * lod / tileSize⌉` (and symmetrically for
rows), so no tile lies outside the content; and (coverage, no gaps) every
point of the clipped region — assumed of positive extent in both axes —
lies inside the LOD-space square of some emitted tile. -/
theorem visible_tiles_tile_clipped_region (cfg : TileManagerConfig) (viewport : Size)
    (transform : Transform) (contentSize : Size) (pageIndex : ℕ)
    (hts : 0 < cfg.tileSize)
    (hx : clipLeft cfg viewport transform < clipRight cfg viewport transform contentSize)
    (hy : clipTop cfg viewport transform < clipBottom cfg viewport transform contentSize) :
    (∀ t ∈ getVisibleTiles cfg viewport transform contentSize pageIndex,
       0 ≤ t.col ∧ t.col < tmMaxCols cfg transform contentSize ∧
       0 ≤ t.row ∧ t.row < tmMaxRows cfg transform contentSize) ∧
    (∀ px py : ℚ,
       clipLeft cfg viewport transform ≤ px →
       px ≤ clipRight cfg viewport transform contentSize →
       clipTop cfg viewport transform ≤ py →
       py ≤ clipBottom cfg viewport transform contentSize →
       ∃ t ∈ getVisibleTiles cfg viewport transform contentSize pageIndex,
         (t.col : ℚ) * cfg.tileSize ≤ px ∧ px ≤ ((t.col : ℚ) + 1) * cfg.tileSize ∧
         (t.row : ℚ) * cfg.tileSize ≤ py ∧ py ≤ ((t.row : ℚ) + 1) * cfg.tileSize) := by
  constructor
  · intro t ht
    obtain ⟨row, col, _, _, _, _, h0c, hcm, h0r, hrm, rfl⟩ := mem_getVisibleTiles.mp ht
    exact ⟨h0c, hcm, h0r, hrm⟩
  · intro px py hpx1 hpx2 hpy1 hpy2
    obtain ⟨col, hc1, hc2, hc0, hcm, hcpl, hcpr⟩ :=
      grid_cover_1d cfg.tileSize (lodVisibleRect cfg viewport transform).x
        (lodVisibleRect cfg viewport transform).width
        (contentSize.width * visibleTilesLod cfg transform.scale)
        cfg.buffer px hts hpx1 hpx2 hx
    obtain ⟨row, hr1, hr2, hr0, hrm, hrpt, hrpb⟩ :=
      grid_cover_1d cfg.tileSize (lodVisibleRect cfg viewport transform).y
        (lodVisibleRect cfg viewport transform).height
        (contentSize.height * visibleTilesLod cfg transform.scale)
        cfg.buffer py hts hpy1 hpy2 hy
    refine ⟨tileAt cfg transform pageIndex row col, ?_, ?_, ?_, ?_, ?_⟩
    · exact mem_getVisibleTiles.mpr ⟨row, col, hr1, hr2, hc1, hc2, hc0, hcm, hr0, hrm, rfl⟩
    · exact hcpl
    · exact hcpr
    · exact hrpt
    · exact hrpb

/-- Witness for C1: default configuration, 500×500 viewport, identity-ish
transform, 1000×1000 content, sample point (300, 300). -/
theorem visible_tiles_tile_clipped_region_witness :
    (0 : ℚ) < defaultConfig.tileSize ∧
    clipLeft defaultConfig ⟨500, 500⟩ ⟨0, 0, 1⟩ <
      clipRight defaultConfig ⟨500, 500⟩ ⟨0, 0, 1⟩ ⟨1000, 1000⟩ ∧
    clipTop defaultConfig ⟨500, 500⟩ ⟨0, 0, 1⟩ <
      clipBottom defaultConfig ⟨500, 500⟩ ⟨0, 0, 1⟩ ⟨1000, 1000⟩ ∧
    (∃ t ∈ getVisibleTiles defaultConfig ⟨500, 500⟩ ⟨0, 0, 1⟩ ⟨1000, 1000⟩ 0,
       (t.col : ℚ) * defaultConfig.tileSize ≤ 300 ∧
       (300 : ℚ) ≤ ((t.col : ℚ) + 1) * defaultConfig.tileSize ∧
       (t.row : ℚ) * defaultConfig.tileSize ≤ 300 ∧
       (300 : ℚ) ≤ ((t.row : ℚ) + 1) * defaultConfig.tileSize) :=
  ⟨by with_unfolding_all decide, by with_unfolding_all decide, by with_unfolding_all decide,
   (visible_tiles_tile_clipped_region defaultConfig ⟨500, 500⟩ ⟨0, 0, 1⟩ ⟨1000, 1000⟩ 0
     (by with_unfolding_all decide) (by with_unfolding_all decide)
     (by with_unfolding_all decide)).2 300 300
     (by with_unfolding_all decide) (by with_unfolding_all decide)
     (by with_unfolding_all decide) (by with_unfolding_all decide)⟩

theorem firstLevelGE_eq_some {ls : List ℚ} {scale l : ℚ}
    (h : firstLevelGE ls scale = some l) :
    l ∈ ls ∧ scale ≤ l := by
  induction ls with
  | nil => simp [firstLevelGE] at h
  | cons a as ih =>
    by_cases hle : scale ≤ a
    · simp [firstLevelGE, hle] at h
      exact ⟨by simp [← h], by rw [← h]; exact hle⟩
    · simp [firstLevelGE, hle] at h
      obtain ⟨hmem, hsle⟩ := ih h
      exact ⟨List.mem_cons_of_mem _ hmem, hsle⟩

theorem firstLevelGE_min {ls : List ℚ} {scale l : ℚ}
    (hs : ls.Sorted (· ≤ ·)) (h : firstLevelGE ls scale = some l) :
    ∀ m ∈ ls, scale ≤ m → l ≤ m := by
  induction ls with
  | nil => simp [firstLevelGE] at h
  | cons a as ih =>
    intro m hm hsm
    by_cases hle : scale ≤ a
    · simp [firstLevelGE, hle] at h
      subst h
      rcases List.mem_cons.mp hm with rfl | hm'
      · exact le_refl _
      · exact (List.sorted_cons.mp hs).1 m hm'
    · simp [firstLevelGE, hle] at h
      rcases List.mem_cons.mp hm with rfl | hm'
      · exact absurd hsm hle
      · exact ih (List.sorted_cons.mp hs).2 h m hm' hsm

theorem firstLevelGE_eq_none {ls : List ℚ} {scale : ℚ}
    (h : firstLevelGE ls scale = none) : ∀ l ∈ ls, l < scale := by
  induction ls with
  | nil => simp
  | cons a as ih =>
    by_cases hle : scale ≤ a
    · simp [firstLevelGE, hle] at h
    · simp [firstLevelGE, hle] at h
      intro l hl
      rcases List.mem_cons.mp hl with rfl | hl'
      · exact lt_of_not_le hle
      · exact ih h l hl'

theorem sorted_le_getLastD {ls : List ℚ} (hs : ls.Sorted (· ≤ ·)) :
    ∀ l ∈ ls, l ≤ ls.getLastD 0 := by
  induction ls with
  | nil => simp
  | cons a as ih =>
    intro l hl
    obtain ⟨ha, has⟩ := List.sorted_cons.mp hs
    rcases List.mem_cons.mp hl with rfl | hl'
    · cases as with
      | nil => simp
      | cons b bs =>
        calc l ≤ b := ha b (by simp)
        _ ≤ (b :: bs).getLastD 0 := ih has b (by simp)
    · cases as with
      | nil => simp at hl'
      | cons b bs => exact ih has l hl'

theorem getLastD_mem {ls : List ℚ} (hne : ls ≠ []) : ls.getLastD 0 ∈ ls := by
  cases ls with
  | nil => exact absurd rfl hne
  | cons a as =>
    rw [List.getLastD_eq_getLast?, List.getLast?_eq_getLast (a :: as) (by simp)]
    simp [List.getLast_mem]

/-- **C2.** For every scale, the LOD selected inside `getVisibleTiles` and
by `getLodForScale` agree and equal the smallest configured LOD level that
is `≥ scale`; when every level is below `scale` the largest level is
selected; the selection is always a member of the configured level list;
and a scale at or below the smallest level selects the smallest level. -/
theorem lod_selection_ceiling (cfg : TileManagerConfig) (scale : ℚ)
    (hne : cfg.lodLevels ≠ []) (hs : cfg.lodLevels.Sorted (· ≤ ·)) :
    visibleTilesLod cfg scale = getLodForScale cfg scale ∧
    getLodForScale cfg scale ∈ cfg.lodLevels ∧
    (∀ l ∈ cfg.lodLevels, scale ≤ l →
      scale ≤ getLodForScale cfg scale ∧ getLodForScale cfg scale ≤ l) ∧
    ((∀ l ∈ cfg.lodLevels, l < scale) →
      ∀ l ∈ cfg.lodLevels, l ≤ getLodForScale cfg scale) ∧
    (∀ m ∈ cfg.lodLevels, (∀ l ∈ cfg.lodLevels, m ≤ l) → scale ≤ m →
      getLodForScale cfg scale = m) := by
  have hmain : visibleTilesLod cfg scale = getLodForScale cfg scale ∧
      getLodForScale cfg scale ∈ cfg.lodLevels ∧
      (∀ l ∈ cfg.lodLevels, scale ≤ l →
        scale ≤ getLodForScale cfg scale ∧ getLodForScale cfg scale ≤ l) ∧
      ((∀ l ∈ cfg.lodLevels, l < scale) →
        ∀ l ∈ cfg.lodLevels, l ≤ getLodForScale cfg scale) := by
    cases hfl : firstLevelGE cfg.lodLevels scale with
    | some l =>
      obtain ⟨hmem, hsle⟩ := firstLevelGE_eq_some hfl
      have hnotlast : ¬ cfg.lodLevels.getLastD 0 < scale := by
        intro hlt
        exact absurd hsle (not_le.mpr (lt_of_le_of_lt (sorted_le_getLastD hs l hmem) hlt))
      constructor
      · simp only [visibleTilesLod, getLodForScale, hfl]
        rw [if_neg hnotlast]
      constructor
      · simp [getLodForScale, hfl, hmem]
      constructor
      · intro m hm hsm
        refine ⟨by simp [getLodForScale, hfl, hsle], ?_⟩
        simp only [getLodForScale, hfl]
        exact firstLevelGE_min hs hfl m hm hsm
      · intro hall
        exact absurd hsle (not_le.mpr (hall l hmem))
    | none =>
      have hall := firstLevelGE_eq_none hfl
      constructor
      · simp only [visibleTilesLod, getLodForScale, hfl]
        split <;> rfl
      constructor
      · simp only [getLodForScale, hfl]
        exact getLastD_mem hne
      constructor
      · intro m hm hsm
        exact absurd hsm (not_le.mpr (hall m hm))
      · intro _ l hl
        simp only [getLodForScale, hfl]
        exact sorted_le_getLastD hs l hl
  refine ⟨hmain.1, hmain.2.1, hmain.2.2.1, hmain.2.2.2, ?_⟩
  intro m hm hmin hsm
  obtain ⟨hsel, hle⟩ := hmain.2.2.1 m hm hsm
  exact le_antisymm hle (hmin _ hmain.2.1)

-- ═════════════════════════════════════════════════════════════════════════
-- Edge cases of getVisibleTiles (claim C9)
-- ═════════════════════════════════════════════════════════════════════════

/-- **C9 counterexample.** A zero-sized viewport does *not* yield an empty
tile list: with the default configuration (buffer = 1), the identity
transform and a 1000×1000 content size, `getVisibleTiles` with a 0×0
viewport still emits the tile `(row, col) = (0, 0)` — the buffer ring
around the degenerate visible point, clipped to content bounds. -/
theorem zero_viewport_not_empty :
    getVisibleTiles defaultConfig ⟨0, 0⟩ ⟨0, 0, 1⟩ ⟨1000, 1000⟩ 0 ≠ [] := by
  with_unfolding_all decide

/-- **C9 (amended).** A `contentSize` of zero yields an empty tile list,
for every configuration, viewport and transform (every cell is culled
because `maxCols = maxRows = 0`).  The zero-viewport clause of the original
claim does not hold on the code (see `zero_viewport_not_empty`). -/
theorem content_size_zero_empty (cfg : TileManagerConfig) (viewport : Size)
    (transform : Transform) (pageIndex : ℕ) :
    getVisibleTiles cfg viewport transform ⟨0, 0⟩ pageIndex = [] := by
  unfold getVisibleTiles
  apply List.flatMap_eq_nil_iff.mpr
  intro row _
  have hm : tmMaxCols cfg transform ⟨0, 0⟩ = 0 := by
    unfold tmMaxCols
    norm_num
  rw [hm]
  have hfilter :
      (intRange (tmStartCol cfg viewport transform) (tmEndCol cfg viewport transform)).filter
        (fun col => decide ¬(col < 0 ∨ (0 : ℤ) ≤ col ∨ row < 0 ∨
          tmMaxRows cfg transform ⟨0, 0⟩ ≤ row)) = [] := by
    apply List.filter_eq_nil_iff.mpr
    intro col _
    simp only [decide_eq_true_eq, not_or, not_lt, not_le, not_and]
    intro h
    omega
  rw [hfilter]
  rfl

/-- Witness for C2 at the default configuration and `scale = 1.1`. -/
theorem lod_selection_ceiling_witness :
    defaultConfig.lodLevels ≠ [] ∧
    defaultConfig.lodLevels.Sorted (· ≤ ·) ∧
    getLodForScale defaultConfig (11/10) ∈ defaultConfig.lodLevels :=
  ⟨by with_unfolding_all decide, by with_unfolding_all decide,
   (lod_selection_ceiling defaultConfig (11/10) (by with_unfolding_all decide)
     (by with_unfolding_all decide)).2.1⟩


-- ═════════════════════════════════════════════════════════════════════════
-- Job-queue map lemmas
-- ═════════════════════════════════════════════════════════════════════════

theorem getJob_cons (x : PendingTileJob) (l : List PendingTileJob) (id : String) :
    getJob (x :: l) id = if x.id = id then some x else getJob l id := by
  by_cases h : x.id = id
  · simp [getJob, List.find?_cons_of_pos, h]
  · simp [getJob, List.find?_cons_of_neg, h]

theorem getJob_map_set (q : List PendingTileJob) (j : PendingTileJob) :
    getJob (q.map (fun j0 => if j0.id = j.id then j else j0)) j.id =
      if (getJob q j.id).isSome then some j else none := by
  induction q with
  | nil => simp [getJob]
  | cons j0 q' ih =>
    by_cases h0 : j0.id = j.id
    · simp [getJob_cons, h0]
    · simp [getJob_cons, h0, ih]

theorem getJob_append_single {q : List PendingTileJob} {j : PendingTileJob}
    (h : ∀ x ∈ q, x.id ≠ j.id) : getJob (q ++ [j]) j.id = some j := by
  induction q with
  | nil => simp [getJob_cons]
  | cons x q' ih =>
    rw [List.cons_append, getJob_cons, if_neg (h x (by simp))]
    exact ih (fun y hy => h y (by simp [hy]))

theorem getJob_setJob (q : List PendingTileJob) (j : PendingTileJob) :
    getJob (setJob q j) j.id = some j := by
  unfold setJob
  by_cases h : (getJob q j.id).isSome
  · rw [if_pos h, getJob_map_set, if_pos h]
  · rw [if_neg h]
    apply getJob_append_single
    intro x hx hxid
    apply h
    unfold getJob
    cases hq : List.find? (fun j0 => decide (j0.id = j.id)) q with
    | none =>
      have := List.find?_eq_none.mp hq x hx
      simp [hxid] at this
    | some j1 => simp

theorem getJob_delJob (q : List PendingTileJob) (id : String) :
    getJob (delJob q id) id = none := by
  unfold getJob delJob
  rw [List.find?_eq_none]
  intro j hj
  have h2 := (List.mem_filter.mp hj).2
  simp at h2 ⊢
  exact h2

theorem mem_setJob {q : List PendingTileJob} {j x : PendingTileJob}
    (hx : x ∈ setJob q j) : x = j ∨ (x ∈ q ∧ x.id ≠ j.id) := by
  unfold setJob at hx
  split at hx
  · obtain ⟨y, hy, hxy⟩ := List.mem_map.mp hx
    by_cases h0 : y.id = j.id
    · rw [if_pos h0] at hxy
      exact Or.inl hxy.symm
    · rw [if_neg h0] at hxy
      exact Or.inr ⟨hxy ▸ hy, hxy ▸ h0⟩
  · rcases List.mem_append.mp hx with h | h
    · refine Or.inr ⟨h, ?_⟩
      rename_i hnone
      intro hid
      apply hnone
      unfold getJob
      cases hq : List.find? (fun j0 => decide (j0.id = j.id)) q with
      | none =>
        have hx2 := List.find?_eq_none.mp hq x h
        simp [hid] at hx2
      | some j1 => simp
    · exact Or.inl (List.mem_singleton.mp h)

theorem mem_delJob {q : List PendingTileJob} {id : String} {x : PendingTileJob}
    (hx : x ∈ delJob q id) : x ∈ q :=
  (List.mem_filter.mp hx).1

-- ═════════════════════════════════════════════════════════════════════════
-- Cancellation and supersession (claims C7, C6)
-- ═════════════════════════════════════════════════════════════════════════

/-- **C7.** Cancelling a pending render job and then delivering its
`TILE_READY` result settles no promise (the cancellation emits no action
and the delivery emits only a bitmap release), leaves no entry for the id
in the job table, and releases the delivered bitmap exactly once. -/
theorem cancel_then_ready_releases_once (s : PoolState) (tileId : String) (bmp : ℕ) :
    (cancelTile (renderTile s tileId).1 tileId).2 = [] ∧
    (handleTileReady (cancelTile (renderTile s tileId).1 tileId).1 tileId bmp).2 =
      [PoolAction.closeBitmap bmp] ∧
    getJob (handleTileReady (cancelTile (renderTile s tileId).1 tileId).1 tileId bmp).1.jobQueue
      tileId = none := by
  have h1 : getJob (renderTile s tileId).1.jobQueue tileId = some
      { id := tileId, promiseId := s.nextPromise, workerIndex := s.workerRoundRobin } := by
    unfold renderTile
    exact getJob_setJob s.jobQueue _
  have h2 : cancelTile (renderTile s tileId).1 tileId =
      ({ (renderTile s tileId).1 with
          jobQueue := delJob (renderTile s tileId).1.jobQueue tileId }, []) := by
    unfold cancelTile
    rw [h1]
  have h3 : getJob (cancelTile (renderTile s tileId).1 tileId).1.jobQueue tileId = none := by
    rw [h2]
    exact getJob_delJob _ _
  refine ⟨by rw [h2], ?_, ?_⟩
  · unfold handleTileReady
    rw [h3]
  · unfold handleTileReady
    rw [h3]
    exact h3

/-- **C6.** A `loadDocument` call that finds a pending (unrejected)
barrier first rejects that barrier's promise with the supersession error
(`"Load cancelled by new request"`), strictly before any `LOAD_DOCUMENT`
broadcast, and then installs a fresh independent barrier for the new
promise handle taken from the counter. -/
theorem load_document_supersedes (s : PoolState) (pl : PendingLoad) (url : String)
    (hpl : s.pendingLoad = some pl) (hrej : pl.rejected = false) :
    (loadDocument s url).2.2 =
      PoolAction.rejectLoad pl.promiseId loadCancelledError ::
        (List.range s.maxWorkers).map (fun i => PoolAction.postLoad i url) ∧
    (loadDocument s url).1.pendingLoad =
      some { promiseId := s.nextPromise, loadedCount := 0, dimensions := none,
             rejected := false } ∧
    (loadDocument s url).2.1 = s.nextPromise := by
  simp [loadDocument, hpl, hrej]

/-- Witness for C6: pool of 2 workers with a pending barrier for promise 0. -/
theorem load_document_supersedes_witness :
    ((initialPoolState 2).pendingLoad = none) ∧
    (loadDocument
        { maxWorkers := 2
          jobQueue := []
          workerRoundRobin := 0
          pendingLoad := some { promiseId := 0, loadedCount := 1, dimensions := none,
                                rejected := false }
          nextPromise := 1 } sampleUrl).2.2 =
      PoolAction.rejectLoad 0 loadCancelledError ::
        (List.range 2).map (fun i => PoolAction.postLoad i sampleUrl) :=
  ⟨by with_unfolding_all decide,
   (load_document_supersedes
      { maxWorkers := 2
        jobQueue := []
        workerRoundRobin := 0
        pendingLoad := some { promiseId := 0, loadedCount := 1, dimensions := none,
                              rejected := false }
        nextPromise := 1 }
      { promiseId := 0, loadedCount := 1, dimensions := none, rejected := false }
      sampleUrl rfl rfl).1⟩

-- ═════════════════════════════════════════════════════════════════════════
-- Document-load barrier (claim C3)
-- ═════════════════════════════════════════════════════════════════════════

theorem updateDimensions_fields (pl : PendingLoad) (w h : Option ℚ) :
    (updateDimensions pl w h).promiseId = pl.promiseId ∧
    (updateDimensions pl w h).loadedCount = pl.loadedCount ∧
    (updateDimensions pl w h).rejected = pl.rejected := by
  unfold updateDimensions
  rcases hd : pl.dimensions with _ | d <;> rcases w with _ | w0 <;> rcases h with _ | h0 <;> simp

theorem countLoaded_cons_loaded (w h : Option ℚ) (ms : List PoolEvent) :
    countLoaded (PoolEvent.documentLoaded w h :: ms) = countLoaded ms + 1 := by
  simp [countLoaded, List.countP_cons]

theorem countLoaded_cons_error (e : Option String) (ms : List PoolEvent) :
    countLoaded (PoolEvent.documentError e :: ms) = countLoaded ms := by
  simp [countLoaded, List.countP_cons]

/-- After the barrier is settled (`pendingLoad = null`), further document
messages are ignored: no state change, no action. -/
theorem runEvents_docOnly_noPending (ms : List PoolEvent) :
    ∀ s : PoolState, s.pendingLoad = none → (∀ e ∈ ms, isDocMessage e = true) →
    runEvents s ms = (s, []) := by
  induction ms with
  | nil => intro s _ _; rfl
  | cons e ms' ih =>
    intro s hs hms
    have he := hms e (by simp)
    have hstep : stepEvent s e = (s, []) := by
      cases e <;> simp [isDocMessage] at he
      · simp [stepEvent, handleDocumentLoaded, hs]
      · simp [stepEvent, handleDocumentError, hs]
    have htail := ih s hs (fun e' he' => hms e' (by simp [he']))
    simp [runEvents, hstep, htail]

/-- Core of the barrier argument, by induction over the inbound document
messages: starting from an unrejected barrier, a resolution of the barrier
promise requires enough `DOCUMENT_LOADED` messages to reach the pool size;
and if they never suffice while a `DOCUMENT_ERROR` arrives, the promise is
rejected and never resolved. -/
theorem barrier_run (ms : List PoolEvent) :
    ∀ (s : PoolState) (pl : PendingLoad),
    s.pendingLoad = some pl → pl.rejected = false →
    (∀ e ∈ ms, isDocMessage e = true) →
    (∀ w h, PoolAction.resolveLoad pl.promiseId w h ∈ (runEvents s ms).2 →
       s.maxWorkers ≤ pl.loadedCount + countLoaded ms) ∧
    ((pl.loadedCount + countLoaded ms < s.maxWorkers ∧ (∃ e ∈ ms, isDocError e = true)) →
       (∃ err, PoolAction.rejectLoad pl.promiseId err ∈ (runEvents s ms).2) ∧
       (∀ w h, PoolAction.resolveLoad pl.promiseId w h ∉ (runEvents s ms).2)) := by
  induction ms with
  | nil =>
    intro s pl hpl hrej hms
    constructor
    · intro w h hmem
      simp [runEvents] at hmem
    · rintro ⟨_, ⟨e, he, _⟩⟩
      simp at he
  | cons e ms' ih =>
    intro s pl hpl hrej hms
    have he := hms e (by simp)
    have hms' : ∀ e' ∈ ms', isDocMessage e' = true := fun e' he' => hms e' (by simp [he'])
    cases e with
    | loadDoc url => simp [isDocMessage] at he
    | renderTileCall id => simp [isDocMessage] at he
    | cancelTileCall id => simp [isDocMessage] at he
    | tileReady id bmp => simp [isDocMessage] at he
    | tileError id err => simp [isDocMessage] at he
    | documentLoaded w0 h0 =>
      set pl2 := updateDimensions { pl with loadedCount := pl.loadedCount + 1 } w0 h0 with hpl2
      have hpid : pl2.promiseId = pl.promiseId := by
        rw [hpl2]; exact (updateDimensions_fields _ _ _).1
      have hlc : pl2.loadedCount = pl.loadedCount + 1 := by
        rw [hpl2]; exact (updateDimensions_fields _ _ _).2.1
      have hrej2 : pl2.rejected = false := by
        rw [hpl2, (updateDimensions_fields _ _ _).2.2]; exact hrej
      by_cases hc : s.maxWorkers ≤ pl.loadedCount + 1
      · -- barrier resolves at this step; the tail is inert
        constructor
        · intro w h _
          rw [countLoaded_cons_loaded]
          omega
        · rintro ⟨hlt, _⟩
          rw [countLoaded_cons_loaded] at hlt
          omega
      · -- barrier still pending with one more acknowledgement
        have hstep : stepEvent s (PoolEvent.documentLoaded w0 h0) =
            ({ s with pendingLoad := some pl2 }, []) := by
          simp only [stepEvent, handleDocumentLoaded, hpl, ← hpl2, hlc]
          rw [if_neg hc]
        have hihres := ih { s with pendingLoad := some pl2 } pl2 rfl hrej2 hms'
        have hmw : ({ s with pendingLoad := some pl2 } : PoolState).maxWorkers =
            s.maxWorkers := rfl
        rw [hpid, hlc, hmw] at hihres
        have hact : (runEvents s (PoolEvent.documentLoaded w0 h0 :: ms')).2 =
            (runEvents { s with pendingLoad := some pl2 } ms').2 := by
          simp [runEvents, hstep]
        constructor
        · intro w h hmem
          rw [hact] at hmem
          have hle := hihres.1 w h hmem
          rw [countLoaded_cons_loaded]
          omega
        · rintro ⟨hlt, ⟨e', he', herr⟩⟩
          rw [countLoaded_cons_loaded] at hlt
          have he'2 : e' ∈ ms' := by
            rcases List.mem_cons.mp he' with rfl | h2
            · simp [isDocError] at herr
            · exact h2
          have hres := hihres.2 ⟨by omega, ⟨e', he'2, herr⟩⟩
          rw [hact]
          exact hres
    | documentError err0 =>
      have hstep : stepEvent s (PoolEvent.documentError err0) =
          ({ s with pendingLoad := none },
           [PoolAction.rejectLoad pl.promiseId (err0.getD unknownWorkerError)]) := by
        simp [stepEvent, handleDocumentError, hpl, hrej]
      have htail := runEvents_docOnly_noPending ms' { s with pendingLoad := none } rfl hms'
      have hact : (runEvents s (PoolEvent.documentError err0 :: ms')).2 =
          [PoolAction.rejectLoad pl.promiseId (err0.getD unknownWorkerError)] := by
        simp [runEvents, hstep, htail]
      constructor
      · intro w h hmem
        rw [hact] at hmem
        simp at hmem
      · intro _
        rw [hact]
        refine ⟨⟨err0.getD unknownWorkerError, by simp⟩, ?_⟩
        intro w h hmem
        simp at hmem

/-- **C3.** The barrier promise created by `loadDocument` resolves only
once `loadedCount` has reached the pool size — i.e. at least `maxWorkers`
`DOCUMENT_LOADED` acknowledgements were delivered — and if fewer than
`maxWorkers` acknowledgements arrive and some worker reports
`DOCUMENT_ERROR`, the promise is rejected and never resolved (in whatever
order the messages arrive; e.g. pool of 4, three LOADED and one ERROR). -/
theorem load_document_barrier (s0 : PoolState) (url : String) (ms : List PoolEvent)
    (hms : ∀ e ∈ ms, isDocMessage e = true) :
    (∀ w h, PoolAction.resolveLoad (loadDocument s0 url).2.1 w h ∈
        (runEvents (loadDocument s0 url).1 ms).2 →
      s0.maxWorkers ≤ countLoaded ms) ∧
    ((countLoaded ms < s0.maxWorkers ∧ (∃ e ∈ ms, isDocError e = true)) →
      (∃ err, PoolAction.rejectLoad (loadDocument s0 url).2.1 err ∈
          (runEvents (loadDocument s0 url).1 ms).2) ∧
      (∀ w h, PoolAction.resolveLoad (loadDocument s0 url).2.1 w h ∉
          (runEvents (loadDocument s0 url).1 ms).2)) := by
  have h1 : (loadDocument s0 url).1.pendingLoad =
      some { promiseId := s0.nextPromise, loadedCount := 0, dimensions := none,
             rejected := false } := by
    simp [loadDocument]
  have h2 : (loadDocument s0 url).2.1 = s0.nextPromise := by
    simp [loadDocument]
  have h3 : (loadDocument s0 url).1.maxWorkers = s0.maxWorkers := by
    simp [loadDocument]
  have hb := barrier_run ms (loadDocument s0 url).1
    { promiseId := s0.nextPromise, loadedCount := 0, dimensions := none, rejected := false }
    h1 rfl hms
  rw [h3] at hb
  rw [h2]
  simpa using hb

/-- Witness for C3: pool of 4 workers, three LOADED and one ERROR → the
barrier promise is rejected and never resolved. -/
theorem load_document_barrier_witness :
    (∀ e ∈ sampleDocEvents, isDocMessage e = true) ∧
    ((∃ err, PoolAction.rejectLoad (loadDocument (initialPoolState 4) sampleUrl).2.1 err ∈
        (runEvents (loadDocument (initialPoolState 4) sampleUrl).1 sampleDocEvents).2) ∧
     (∀ w h, PoolAction.resolveLoad (loadDocument (initialPoolState 4) sampleUrl).2.1 w h ∉
        (runEvents (loadDocument (initialPoolState 4) sampleUrl).1 sampleDocEvents).2)) :=
  ⟨by with_unfolding_all decide,
   (load_document_barrier (initialPoolState 4) sampleUrl sampleDocEvents
      (by with_unfolding_all decide)).2
     ⟨by with_unfolding_all decide, by with_unfolding_all decide⟩⟩

-- ═════════════════════════════════════════════════════════════════════════
-- Stale promises are never settled (claim C10)
-- ═════════════════════════════════════════════════════════════════════════

/-- A promise handle that is absent from the state and below the fresh
counter stays untouched by one step: the step emits no action for it and
preserves absence. -/
theorem promiseAbsent_step (s : PoolState) (p : ℕ) (h : promiseAbsent s p) (e : PoolEvent) :
    promiseAbsent (stepEvent s e).1 p ∧
    ∀ a ∈ (stepEvent s e).2, PoolAction.promiseOf a ≠ some p := by
  obtain ⟨hq, hpl, hlt⟩ := h
  cases e with
  | loadDoc url =>
    constructor
    · refine ⟨?_, ?_, ?_⟩
      · intro j hj
        simp only [stepEvent, loadDocument] at hj
        exact hq j hj
      · intro pl0 hpl0
        simp only [stepEvent, loadDocument] at hpl0
        have : pl0.promiseId = s.nextPromise := by
          cases hpl0
          rfl
        omega
      · simp only [stepEvent, loadDocument]
        omega
    · intro a ha
      simp only [stepEvent, loadDocument] at ha
      rcases List.mem_append.mp ha with hc | hb
      · cases hsp : s.pendingLoad with
        | none => rw [hsp] at hc; simp at hc
        | some pl1 =>
          rw [hsp] at hc
          by_cases hr : pl1.rejected
          · simp [hr] at hc
          · simp [hr] at hc
            subst hc
            simp [PoolAction.promiseOf]
            exact hpl pl1 hsp
      · obtain ⟨i, _, rfl⟩ := List.mem_map.mp hb
        simp [PoolAction.promiseOf]
  | renderTileCall id =>
    constructor
    · refine ⟨?_, ?_, ?_⟩
      · intro j hj
        simp only [stepEvent, renderTile] at hj
        rcases mem_setJob hj with rfl | ⟨hjq, _⟩
        · simp
          omega
        · exact hq j hjq
      · intro pl0 hpl0
        simp only [stepEvent, renderTile] at hpl0
        exact hpl pl0 hpl0
      · simp only [stepEvent, renderTile]
        omega
    · intro a ha
      simp only [stepEvent, renderTile] at ha
      have : a = PoolAction.postRender s.workerRoundRobin id := List.mem_singleton.mp ha
      subst this
      simp [PoolAction.promiseOf]
  | cancelTileCall id =>
    cases hgj : getJob s.jobQueue id with
    | some job =>
      constructor
      · refine ⟨?_, ?_, ?_⟩
        · intro j hj
          simp only [stepEvent, cancelTile, hgj] at hj
          exact hq j (mem_delJob hj)
        · intro pl0 hpl0
          simp only [stepEvent, cancelTile, hgj] at hpl0
          exact hpl pl0 hpl0
        · simp only [stepEvent, cancelTile, hgj]
          exact hlt
      · intro a ha
        simp only [stepEvent, cancelTile, hgj] at ha
        simp at ha
    | none =>
      constructor
      · refine ⟨?_, ?_, ?_⟩
        · intro j hj
          simp only [stepEvent, cancelTile, hgj] at hj
          exact hq j hj
        · intro pl0 hpl0
          simp only [stepEvent, cancelTile, hgj] at hpl0
          exact hpl pl0 hpl0
        · simp only [stepEvent, cancelTile, hgj]
          exact hlt
      · intro a ha
        simp only [stepEvent, cancelTile, hgj] at ha
        simp at ha
  | documentLoaded w0 h0 =>
    cases hsp : s.pendingLoad with
    | none =>
      constructor
      · refine ⟨?_, ?_, ?_⟩
        · intro j hj
          simp only [stepEvent, handleDocumentLoaded, hsp] at hj
          exact hq j hj
        · intro pl0 hpl0
          simp only [stepEvent, handleDocumentLoaded, hsp] at hpl0
          simp at hpl0
        · simp only [stepEvent, handleDocumentLoaded, hsp]
          exact hlt
      · intro a ha
        simp only [stepEvent, handleDocumentLoaded, hsp] at ha
        simp at ha
    | some pl1 =>
      have hpid : (updateDimensions { pl1 with loadedCount := pl1.loadedCount + 1 }
          w0 h0).promiseId = pl1.promiseId := (updateDimensions_fields _ _ _).1
      by_cases hc : s.maxWorkers ≤
          (updateDimensions { pl1 with loadedCount := pl1.loadedCount + 1 } w0 h0).loadedCount
      · constructor
        · refine ⟨?_, ?_, ?_⟩
          · intro j hj
            simp only [stepEvent, handleDocumentLoaded, hsp, if_pos hc] at hj
            exact hq j hj
          · intro pl0 hpl0
            simp [stepEvent, handleDocumentLoaded, hsp, if_pos hc] at hpl0
          · simp only [stepEvent, handleDocumentLoaded, hsp, if_pos hc]
            exact hlt
        · intro a ha
          simp only [stepEvent, handleDocumentLoaded, hsp, if_pos hc] at ha
          have ha2 := List.mem_singleton.mp ha
          subst ha2
          simp [PoolAction.promiseOf, hpid]
          exact hpl pl1 hsp
      · constructor
        · refine ⟨?_, ?_, ?_⟩
          · intro j hj
            simp only [stepEvent, handleDocumentLoaded, hsp, if_neg hc] at hj
            exact hq j hj
          · intro pl0 hpl0
            simp only [stepEvent, handleDocumentLoaded, hsp, if_neg hc] at hpl0
            cases hpl0
            rw [hpid]
            exact hpl pl1 hsp
          · simp only [stepEvent, handleDocumentLoaded, hsp, if_neg hc]
            exact hlt
        · intro a ha
          simp only [stepEvent, handleDocumentLoaded, hsp, if_neg hc] at ha
          simp at ha
  | documentError err0 =>
    cases hsp : s.pendingLoad with
    | none =>
      constructor
      · refine ⟨?_, ?_, ?_⟩
        · intro j hj
          simp only [stepEvent, handleDocumentError, hsp] at hj
          exact hq j hj
        · intro pl0 hpl0
          simp only [stepEvent, handleDocumentError, hsp] at hpl0
          simp at hpl0
        · simp only [stepEvent, handleDocumentError, hsp]
          exact hlt
      · intro a ha
        simp only [stepEvent, handleDocumentError, hsp] at ha
        simp at ha
    | some pl1 =>
      by_cases hr : pl1.rejected
      · constructor
        · refine ⟨?_, ?_, ?_⟩
          · intro j hj
            simp only [stepEvent, handleDocumentError, hsp, if_pos hr] at hj
            exact hq j hj
          · intro pl0 hpl0
            simp only [stepEvent, handleDocumentError, hsp, if_pos hr] at hpl0
            cases hpl0
            exact hpl pl1 hsp
          · simp only [stepEvent, handleDocumentError, hsp, if_pos hr]
            exact hlt
        · intro a ha
          simp only [stepEvent, handleDocumentError, hsp, if_pos hr] at ha
          simp at ha
      · constructor
        · refine ⟨?_, ?_, ?_⟩
          · intro j hj
            simp only [stepEvent, handleDocumentError, hsp, if_neg hr] at hj
            exact hq j hj
          · intro pl0 hpl0
            simp [stepEvent, handleDocumentError, hsp, if_neg hr] at hpl0
          · simp only [stepEvent, handleDocumentError, hsp, if_neg hr]
            exact hlt
        · intro a ha
          simp only [stepEvent, handleDocumentError, hsp, if_neg hr] at ha
          have ha2 := List.mem_singleton.mp ha
          subst ha2
          simp [PoolAction.promiseOf]
          exact hpl pl1 hsp
  | tileReady id bmp =>
    cases hgj : getJob s.jobQueue id with
    | some job =>
      have hjob : job ∈ s.jobQueue := List.mem_of_find?_eq_some hgj
      constructor
      · refine ⟨?_, ?_, ?_⟩
        · intro j hj
          simp only [stepEvent, handleTileReady, hgj] at hj
          exact hq j (mem_delJob hj)
        · intro pl0 hpl0
          simp only [stepEvent, handleTileReady, hgj] at hpl0
          exact hpl pl0 hpl0
        · simp only [stepEvent, handleTileReady, hgj]
          exact hlt
      · intro a ha
        simp only [stepEvent, handleTileReady, hgj] at ha
        have ha2 := List.mem_singleton.mp ha
        subst ha2
        simp [PoolAction.promiseOf]
        exact hq job hjob
    | none =>
      constructor
      · refine ⟨?_, ?_, ?_⟩
        · intro j hj
          simp only [stepEvent, handleTileReady, hgj] at hj
          exact hq j hj
        · intro pl0 hpl0
          simp only [stepEvent, handleTileReady, hgj] at hpl0
          exact hpl pl0 hpl0
        · simp only [stepEvent, handleTileReady, hgj]
          exact hlt
      · intro a ha
        simp only [stepEvent, handleTileReady, hgj] at ha
        have ha2 := List.mem_singleton.mp ha
        subst ha2
        simp [PoolAction.promiseOf]
  | tileError id err0 =>
    cases hgj : getJob s.jobQueue id with
    | some job =>
      have hjob : job ∈ s.jobQueue := List.mem_of_find?_eq_some hgj
      constructor
      · refine ⟨?_, ?_, ?_⟩
        · intro j hj
          simp only [stepEvent, handleTileError, hgj] at hj
          exact hq j (mem_delJob hj)
        · intro pl0 hpl0
          simp only [stepEvent, handleTileError, hgj] at hpl0
          exact hpl pl0 hpl0
        · simp only [stepEvent, handleTileError, hgj]
          exact hlt
      · intro a ha
        simp only [stepEvent, handleTileError, hgj] at ha
        have ha2 := List.mem_singleton.mp ha
        subst ha2
        simp [PoolAction.promiseOf]
        exact hq job hjob
    | none =>
      constructor
      · refine ⟨?_, ?_, ?_⟩
        · intro j hj
          simp only [stepEvent, handleTileError, hgj] at hj
          exact hq j hj
        · intro pl0 hpl0
          simp only [stepEvent, handleTileError, hgj] at hpl0
          exact hpl pl0 hpl0
        · simp only [stepEvent, handleTileError, hgj]
          exact hlt
      · intro a ha
        simp only [stepEvent, handleTileError, hgj] at ha
        simp at ha

/-- Absent promises stay unsettled along any event trace. -/
theorem promiseAbsent_run (es : List PoolEvent) :
    ∀ (s : PoolState) (p : ℕ), promiseAbsent s p →
    ∀ a ∈ (runEvents s es).2, PoolAction.promiseOf a ≠ some p := by
  induction es with
  | nil =>
    intro s p _ a ha
    simp [runEvents] at ha
  | cons e es' ih =>
    intro s p h a ha
    obtain ⟨h1, h2⟩ := promiseAbsent_step s p h e
    simp only [runEvents] at ha
    rcases List.mem_append.mp ha with hmem | hmem
    · exact h2 a hmem
    · exact ih (stepEvent s e).1 p h1 a hmem

/-- **C10.** Calling `renderTile` twice with the same tile id overwrites
the first job-table entry: the table then maps the id to the second call's
promise; a `TILE_READY` for the id resolves the second promise; and the
first promise is never resolved nor rejected by any continuation of the
trace (it has leaked out of the state). -/
theorem duplicate_render_overwrites (s : PoolState) (tileId : String) (bmp : ℕ)
    (es : List PoolEvent) (hwf : PoolWF s) :
    (renderTile s tileId).2.1 ≠ (renderTile (renderTile s tileId).1 tileId).2.1 ∧
    getJob (renderTile (renderTile s tileId).1 tileId).1.jobQueue tileId =
      some { id := tileId,
             promiseId := (renderTile (renderTile s tileId).1 tileId).2.1,
             workerIndex := (renderTile s tileId).1.workerRoundRobin } ∧
    (handleTileReady (renderTile (renderTile s tileId).1 tileId).1 tileId bmp).2 =
      [PoolAction.resolveTile (renderTile (renderTile s tileId).1 tileId).2.1 bmp] ∧
    (∀ a ∈ (runEvents (renderTile (renderTile s tileId).1 tileId).1 es).2,
       PoolAction.promiseOf a ≠ some (renderTile s tileId).2.1) := by
  obtain ⟨hwq, hwpl⟩ := hwf
  have hp1 : (renderTile s tileId).2.1 = s.nextPromise := rfl
  have hp2 : (renderTile (renderTile s tileId).1 tileId).2.1 = s.nextPromise + 1 := rfl
  have hgj : getJob (renderTile (renderTile s tileId).1 tileId).1.jobQueue tileId =
      some { id := tileId,
             promiseId := (renderTile (renderTile s tileId).1 tileId).2.1,
             workerIndex := (renderTile s tileId).1.workerRoundRobin } := by
    exact getJob_setJob _ _
  have habs : promiseAbsent (renderTile (renderTile s tileId).1 tileId).1 s.nextPromise := by
    refine ⟨?_, ?_, ?_⟩
    · intro j hj
      have hj2 := mem_setJob hj
      rcases hj2 with rfl | ⟨hj3, hne⟩
      · have hnp : (renderTile s tileId).1.nextPromise = s.nextPromise + 1 := rfl
        simp [hnp]
      · rcases mem_setJob hj3 with rfl | ⟨hj4, _⟩
        · exact absurd rfl hne
        · have := hwq j hj4
          omega
    · intro pl0 hpl0
      have := hwpl pl0 hpl0
      omega
    · show s.nextPromise < s.nextPromise + 1 + 1
      omega
  refine ⟨?_, hgj, ?_, ?_⟩
  · rw [hp1, hp2]
    omega
  · unfold handleTileReady
    rw [hgj]
  · rw [hp1]
    exact promiseAbsent_run es _ s.nextPromise habs

/-- Witness for C10: a fresh pool of 2 workers, the same tile id twice,
then the worker result plus an unrelated cancellation event. -/
theorem duplicate_render_overwrites_witness :
    PoolWF (initialPoolState 2) ∧
    ((renderTile (initialPoolState 2) sampleTileId).2.1 ≠
      (renderTile (renderTile (initialPoolState 2) sampleTileId).1 sampleTileId).2.1 ∧
     getJob (renderTile (renderTile (initialPoolState 2) sampleTileId).1
         sampleTileId).1.jobQueue sampleTileId =
       some { id := sampleTileId,
              promiseId := (renderTile (renderTile (initialPoolState 2) sampleTileId).1
                sampleTileId).2.1,
              workerIndex := (renderTile (initialPoolState 2) sampleTileId).1.workerRoundRobin } ∧
     (handleTileReady (renderTile (renderTile (initialPoolState 2) sampleTileId).1
         sampleTileId).1 sampleTileId 7).2 =
       [PoolAction.resolveTile (renderTile (renderTile (initialPoolState 2) sampleTileId).1
         sampleTileId).2.1 7] ∧
     (∀ a ∈ (runEvents (renderTile (renderTile (initialPoolState 2) sampleTileId).1
          sampleTileId).1 [PoolEvent.tileReady sampleTileId 7, PoolEvent.cancelTileCall
          sampleTileId]).2,
        PoolAction.promiseOf a ≠ some (renderTile (initialPoolState 2) sampleTileId).2.1)) :=
  ⟨⟨by with_unfolding_all decide, by with_unfolding_all decide⟩,
   duplicate_render_overwrites (initialPoolState 2) sampleTileId 7
     [PoolEvent.tileReady sampleTileId 7, PoolEvent.cancelTileCall sampleTileId]
     ⟨by with_unfolding_all decide, by with_unfolding_all decide⟩⟩

-- ═════════════════════════════════════════════════════════════════════════
-- Round-robin dispatch (claim C8)
-- ═════════════════════════════════════════════════════════════════════════

theorem countP_mod_range (n d : ℕ) (hn : 0 < n) (hd : d < n) :
    ∀ k : ℕ, (List.range k).countP (fun i => i % n == d) =
      k / n + (if d < k % n then 1 else 0) := by
  intro k
  induction k with
  | zero => simp [Nat.zero_mod, Nat.zero_div]
  | succ k ih =>
    rw [List.range_succ, List.countP_append, ih]
    have hqr : n * (k / n) + k % n = k := Nat.div_add_mod k n
    have hrn : k % n < n := Nat.mod_lt k hn
    by_cases hc : k % n + 1 = n
    · have h1 : k + 1 = n * (k / n + 1) := by
        rw [Nat.mul_add, Nat.mul_one]
        omega
      have hdiv : (k + 1) / n = k / n + 1 := by
        rw [h1, Nat.mul_div_cancel_left _ hn]
      have hmod : (k + 1) % n = 0 := by
        rw [h1]
        exact Nat.mul_mod_right n _
      rw [hdiv, hmod]
      simp only [List.countP_cons, List.countP_nil, Nat.zero_add, beq_iff_eq]
      split_ifs <;> omega
    · have h1 : k + 1 = (k % n + 1) + n * (k / n) := by omega
      have hdiv : (k + 1) / n = k / n := by
        rw [h1, Nat.add_mul_div_left _ _ hn, Nat.div_eq_of_lt (by omega)]
        omega
      have hmod : (k + 1) % n = k % n + 1 := by
        rw [h1, Nat.add_mul_mod_self_left, Nat.mod_eq_of_lt (by omega)]
      rw [hdiv, hmod]
      simp only [List.countP_cons, List.countP_nil, Nat.zero_add, beq_iff_eq]
      split_ifs <;> omega


theorem mod_shift_iff (n r w : ℕ) (_hn : 0 < n) (hr : r < n) (hw : w < n) (i : ℕ) :
    (r + i) % n = w ↔ i % n = ((n - r) + w) % n := by
  have hkey : (r + ((n - r) + w) % n) % n = w := by
    have h1 : r + ((n - r) + w) % n ≡ r + ((n - r) + w) [MOD n] :=
      Nat.ModEq.add_left r (Nat.mod_modEq _ n)
    have h2 : r + ((n - r) + w) = n + w := by omega
    have h3 : n + w ≡ 0 + w [MOD n] :=
      Nat.ModEq.add_right w (Nat.modEq_zero_iff_dvd.mpr dvd_rfl)
    have h4 : r + ((n - r) + w) % n ≡ w [MOD n] := by
      calc r + ((n - r) + w) % n ≡ r + ((n - r) + w) [MOD n] := h1
      _ = n + w := h2
      _ ≡ 0 + w [MOD n] := h3
      _ = w := Nat.zero_add w
    have h5 : w % n = w := Nat.mod_eq_of_lt hw
    unfold Nat.ModEq at h4
    rw [h5] at h4
    exact h4
  constructor
  · intro h
    have h1 : (r + i) % n = (r + ((n - r) + w) % n) % n := by rw [h, hkey]
    have h2 : r + i ≡ r + ((n - r) + w) % n [MOD n] := h1
    have h3 : i ≡ ((n - r) + w) % n [MOD n] := Nat.ModEq.add_left_cancel' r h2
    have h4 : ((n - r) + w) % n % n = ((n - r) + w) % n := Nat.mod_mod_of_dvd _ dvd_rfl
    unfold Nat.ModEq at h3
    rw [h4] at h3
    exact h3
  · intro h
    have h2 : i ≡ ((n - r) + w) % n [MOD n] := by
      unfold Nat.ModEq
      rw [h, Nat.mod_mod_of_dvd _ dvd_rfl]
    have h3 : r + i ≡ r + ((n - r) + w) % n [MOD n] := Nat.ModEq.add_left r h2
    unfold Nat.ModEq at h3
    rw [hkey] at h3
    exact h3

theorem runRender_countP (ids : List String) :
    ∀ (s : PoolState) (w : ℕ), 0 < s.maxWorkers → s.workerRoundRobin < s.maxWorkers →
    ((runEvents s (ids.map PoolEvent.renderTileCall)).2.countP (isPostRenderTo w)) =
      (List.range ids.length).countP
        (fun i => (s.workerRoundRobin + i) % s.maxWorkers == w) := by
  induction ids with
  | nil =>
    intro s w _ _
    simp [runEvents]
  | cons id rest ih =>
    intro s w hn hr
    have hstep : stepEvent s (PoolEvent.renderTileCall id) =
        ((renderTile s id).1, [PoolAction.postRender s.workerRoundRobin id]) := rfl
    have hs1w : (renderTile s id).1.workerRoundRobin =
        (s.workerRoundRobin + 1) % s.maxWorkers := rfl
    have hs1n : (renderTile s id).1.maxWorkers = s.maxWorkers := rfl
    have hih := ih (renderTile s id).1 w (by rw [hs1n]; exact hn)
      (by rw [hs1n, hs1w]; exact Nat.mod_lt _ hn)
    rw [hs1n, hs1w] at hih
    simp only [List.map_cons, runEvents, hstep, List.countP_append, List.countP_cons,
      List.countP_nil, Nat.zero_add]
    rw [hih]
    rw [List.length_cons, List.range_succ_eq_map, List.countP_cons, List.countP_map]
    have hp0 : ((s.workerRoundRobin + 0) % s.maxWorkers == w) =
        (isPostRenderTo w (PoolAction.postRender s.workerRoundRobin id)) := by
      simp only [Nat.add_zero, isPostRenderTo]
      rw [Nat.mod_eq_of_lt hr]
    have hfun : ((fun i => (s.workerRoundRobin + i) % s.maxWorkers == w) ∘ Nat.succ) =
        (fun i => ((s.workerRoundRobin + 1) % s.maxWorkers + i) % s.maxWorkers == w) := by
      funext i
      simp only [Function.comp]
      have : s.workerRoundRobin + Nat.succ i = (s.workerRoundRobin + 1) + i := by omega
      rw [this, ← Nat.mod_add_mod]
    rw [hp0, hfun]
    omega

/-- **C8.** Issuing `k` consecutive `renderTile` calls against a pool of
`n` workers (with the round-robin cursor in range) posts each worker `w`
either `⌊k / n⌋` or `⌈k / n⌉ = (k + n - 1) / n` render jobs. -/
theorem round_robin_fair (s : PoolState) (ids : List String) (w : ℕ)
    (hn : 0 < s.maxWorkers) (hr : s.workerRoundRobin < s.maxWorkers)
    (hw : w < s.maxWorkers) :
    ((runEvents s (ids.map PoolEvent.renderTileCall)).2.countP (isPostRenderTo w) =
        ids.length / s.maxWorkers) ∨
    ((runEvents s (ids.map PoolEvent.renderTileCall)).2.countP (isPostRenderTo w) =
        (ids.length + s.maxWorkers - 1) / s.maxWorkers) := by
  have hd : ((s.maxWorkers - s.workerRoundRobin) + w) % s.maxWorkers < s.maxWorkers :=
    Nat.mod_lt _ hn
  have h1 := runRender_countP ids s w hn hr
  have hfun : (fun i => (s.workerRoundRobin + i) % s.maxWorkers == w) =
      (fun i => i % s.maxWorkers ==
        ((s.maxWorkers - s.workerRoundRobin) + w) % s.maxWorkers) := by
    funext i
    have hiff := mod_shift_iff s.maxWorkers s.workerRoundRobin w hn hr hw i
    by_cases h : (s.workerRoundRobin + i) % s.maxWorkers = w
    · simp [h, hiff.mp h]
    · have h2 : ¬ i % s.maxWorkers =
          ((s.maxWorkers - s.workerRoundRobin) + w) % s.maxWorkers :=
        fun hh => h (hiff.mpr hh)
      simp [h, h2]
  rw [h1, hfun, countP_mod_range s.maxWorkers _ hn hd ids.length]
  by_cases hlt : ((s.maxWorkers - s.workerRoundRobin) + w) % s.maxWorkers <
      ids.length % s.maxWorkers
  · right
    rw [if_pos hlt]
    have hqr : s.maxWorkers * (ids.length / s.maxWorkers) + ids.length % s.maxWorkers =
        ids.length := Nat.div_add_mod ids.length s.maxWorkers
    have hrn : ids.length % s.maxWorkers < s.maxWorkers := Nat.mod_lt _ hn
    have h2 : ids.length + s.maxWorkers - 1 =
        (ids.length % s.maxWorkers - 1) +
          s.maxWorkers * (ids.length / s.maxWorkers + 1) := by
      rw [Nat.mul_add, Nat.mul_one]
      omega
    have h3 : (ids.length % s.maxWorkers - 1) / s.maxWorkers = 0 :=
      Nat.div_eq_of_lt (by omega)
    rw [h2, Nat.add_mul_div_left _ _ hn, h3]
    omega
  · left
    rw [if_neg hlt]
    omega

/-- Witness for C8: pool of 3 workers, 7 render calls, worker 1 gets
either 2 = ⌊7/3⌋ or 3 = ⌈7/3⌉ jobs. -/
theorem round_robin_fair_witness :
    (0 < (initialPoolState 3).maxWorkers ∧
     (initialPoolState 3).workerRoundRobin < (initialPoolState 3).maxWorkers ∧
     1 < (initialPoolState 3).maxWorkers) ∧
    (((runEvents (initialPoolState 3) (sampleTileIds.map PoolEvent.renderTileCall)).2.countP
        (isPostRenderTo 1) = sampleTileIds.length / (initialPoolState 3).maxWorkers) ∨
     ((runEvents (initialPoolState 3) (sampleTileIds.map PoolEvent.renderTileCall)).2.countP
        (isPostRenderTo 1) =
          (sampleTileIds.length + (initialPoolState 3).maxWorkers - 1) /
            (initialPoolState 3).maxWorkers)) :=
  ⟨⟨by with_unfolding_all decide, by with_unfolding_all decide, by with_unfolding_all decide⟩,
   round_robin_fair (initialPoolState 3) sampleTileIds 1
     (by with_unfolding_all decide) (by with_unfolding_all decide)
     (by with_unfolding_all decide)⟩

-- ═════════════════════════════════════════════════════════════════════════
-- Tile cache reconciliation lemmas (claim C5)
-- ═════════════════════════════════════════════════════════════════════════

theorem mem_insertVisible_of_mem (vs : List Tile) :
    ∀ (c : List CachedTile) (x : CachedTile), x ∈ c → x ∈ insertVisible c vs := by
  induction vs with
  | nil => intro c x hx; exact hx
  | cons t ts ih =>
    intro c x hx
    simp only [insertVisible]
    split
    · exact ih c x hx
    · exact ih _ x (List.mem_append.mpr (Or.inl hx))

theorem insertVisible_key_exists (vs : List Tile) :
    ∀ (c : List CachedTile) (t : Tile), t ∈ vs →
    ∃ ct ∈ insertVisible c vs, ct.key = t.key := by
  induction vs with
  | nil => intro c t ht; simp at ht
  | cons t0 ts ih =>
    intro c t ht
    rcases List.mem_cons.mp ht with rfl | hts
    · simp only [insertVisible]
      by_cases hany : (c.any (fun ct => decide (ct.key = t.key))) = true
      · rw [if_pos hany]
        obtain ⟨ct, hct, hkey⟩ := List.any_eq_true.mp hany
        exact ⟨ct, mem_insertVisible_of_mem ts c ct hct, of_decide_eq_true hkey⟩
      · rw [if_neg hany]
        refine ⟨{ toTile := t, isReady := false }, ?_, rfl⟩
        exact mem_insertVisible_of_mem ts _ _ (List.mem_append.mpr (Or.inr (by simp)))
    · simp only [insertVisible]
      split
      · exact ih c t hts
      · exact ih _ t hts

theorem insertVisible_nodup (vs : List Tile) :
    ∀ c : List CachedTile, (c.map CachedTile.key).Nodup →
    ((insertVisible c vs).map CachedTile.key).Nodup := by
  induction vs with
  | nil => intro c h; exact h
  | cons t ts ih =>
    intro c h
    simp only [insertVisible]
    by_cases hany : (c.any (fun ct => decide (ct.key = t.key))) = true
    · rw [if_pos hany]
      exact ih c h
    · rw [if_neg hany]
      apply ih
      rw [List.map_append]
      refine List.Nodup.append h (by simp) ?_
      intro k hk1 hk2
      simp only [List.map_cons, List.map_nil, List.mem_singleton] at hk2
      obtain ⟨ct, hct, hkey⟩ := List.mem_map.mp hk1
      apply hany
      apply List.any_eq_true.mpr
      refine ⟨ct, hct, ?_⟩
      subst hk2
      have hkey2 : ct.key = t.key := by
        rw [hkey]
        rfl
      simp [hkey2]

theorem mem_insertByLod {t x : CachedTile} :
    ∀ l : List CachedTile, x ∈ insertByLod t l → x = t ∨ x ∈ l := by
  intro l
  induction l with
  | nil =>
    intro hx
    simp [insertByLod] at hx
    exact Or.inl hx
  | cons u us ih =>
    intro hx
    simp only [insertByLod] at hx
    split at hx
    · rcases List.mem_cons.mp hx with rfl | h2
      · exact Or.inl rfl
      · exact Or.inr h2
    · rcases List.mem_cons.mp hx with rfl | h2
      · exact Or.inr (by simp)
      · rcases ih h2 with h3 | h3
        · exact Or.inl h3
        · exact Or.inr (List.mem_cons_of_mem _ h3)

theorem sorted_insertByLod (t : CachedTile) :
    ∀ l : List CachedTile,
    List.Sorted (fun a b : CachedTile => a.lod ≤ b.lod) l →
    List.Sorted (fun a b : CachedTile => a.lod ≤ b.lod) (insertByLod t l) := by
  intro l
  induction l with
  | nil =>
    intro _
    simp [insertByLod]
  | cons u us ih =>
    intro h
    obtain ⟨hu, hus⟩ := List.sorted_cons.mp h
    simp only [insertByLod]
    by_cases hc : t.lod ≤ u.lod
    · rw [if_pos hc]
      apply List.sorted_cons.mpr
      refine ⟨?_, h⟩
      intro b hb
      rcases List.mem_cons.mp hb with rfl | h2
      · exact hc
      · exact le_trans hc (hu b h2)
    · rw [if_neg hc]
      apply List.sorted_cons.mpr
      refine ⟨?_, ih hus⟩
      intro b hb
      rcases mem_insertByLod _ hb with rfl | h2
      · exact le_of_not_le hc
      · exact hu b h2

theorem sorted_sortByLod :
    ∀ l : List CachedTile,
    List.Sorted (fun a b : CachedTile => a.lod ≤ b.lod) (sortByLod l) := by
  intro l
  induction l with
  | nil => simp [sortByLod]
  | cons t ts ih => exact sorted_insertByLod t _ ih

/-- **C5.** After a `tilesToRender` reconciliation pass the cache contains
exactly (1) an entry for every tile of the current visible set and (2) the
cached tiles of strictly lower LOD than the current one that are already
`isReady` and whose world rectangle overlaps the visible rectangle
expanded by `bufferWidth = tileWidth * buffer`; every other entry is
pruned.  The list handed to presentation is sorted ascending by LOD. -/
theorem tile_cache_reconciliation (cache : List CachedTile) (visibleTiles : List Tile)
    (tv : Transform) (vs : Size) (buffer : ℚ)
    (hnodup : (cache.map CachedTile.key).Nodup) :
    (∀ t ∈ visibleTiles,
       ∃ ct ∈ (tilesToRender cache visibleTiles tv vs buffer).2, ct.key = t.key) ∧
    (∀ ct, ct ∈ (tilesToRender cache visibleTiles tv vs buffer).2 ↔
       (ct ∈ insertVisible cache visibleTiles ∧
        (ct.key ∈ visibleKeysOf visibleTiles ∨
         placeholderPred (visibleKeysOf visibleTiles) (layerCurrentLod visibleTiles)
           tv vs buffer ct = true))) ∧
    List.Sorted (fun a b : CachedTile => a.lod ≤ b.lod)
      (tilesToRender cache visibleTiles tv vs buffer).1 := by
  have hc1nodup := insertVisible_nodup visibleTiles cache hnodup
  have hmem : ∀ ct, ct ∈ (tilesToRender cache visibleTiles tv vs buffer).2 ↔
      (ct ∈ insertVisible cache visibleTiles ∧
       (ct.key ∈ visibleKeysOf visibleTiles ∨
        placeholderPred (visibleKeysOf visibleTiles) (layerCurrentLod visibleTiles)
          tv vs buffer ct = true)) := by
    intro ct
    show ct ∈ (insertVisible cache visibleTiles).filter _ ↔ _
    rw [List.mem_filter]
    constructor
    · rintro ⟨hc1, hkeep⟩
      refine ⟨hc1, ?_⟩
      rw [decide_eq_true_eq, List.mem_append] at hkeep
      rcases hkeep with hvis | hph
      · exact Or.inl hvis
      · obtain ⟨ct', hct', hkey⟩ := List.mem_map.mp hph
        rw [List.mem_filter] at hct'
        have hct'c1 := hct'.1
        have heq : ct' = ct :=
          List.inj_on_of_nodup_map hc1nodup hct'c1 hc1 hkey
        subst heq
        exact Or.inr hct'.2
    · rintro ⟨hc1, hkind⟩
      refine ⟨hc1, ?_⟩
      rw [decide_eq_true_eq, List.mem_append]
      rcases hkind with hvis | hph
      · exact Or.inl hvis
      · refine Or.inr (List.mem_map.mpr ⟨ct, ?_, rfl⟩)
        rw [List.mem_filter]
        exact ⟨hc1, hph⟩
  refine ⟨?_, hmem, ?_⟩
  · intro t ht
    obtain ⟨ct, hct, hkey⟩ := insertVisible_key_exists visibleTiles cache t ht
    refine ⟨ct, ?_, hkey⟩
    rw [hmem ct]
    refine ⟨hct, Or.inl ?_⟩
    rw [hkey]
    exact List.mem_map.mpr ⟨t, ht, rfl⟩
  · exact sorted_sortByLod _

/-- Witness for C5: current LOD 2 with one visible LOD-2 tile, and a ready
LOD-1 tile overlapping the expanded visible area in the cache. -/
theorem tile_cache_reconciliation_witness :
    ([sampleLowerTile].map CachedTile.key).Nodup ∧
    ((∀ t ∈ [sampleVisibleTile],
       ∃ ct ∈ (tilesToRender [sampleLowerTile] [sampleVisibleTile]
           ⟨0, 0, 2⟩ ⟨500, 500⟩ 1).2, ct.key = t.key) ∧
     (∀ ct, ct ∈ (tilesToRender [sampleLowerTile] [sampleVisibleTile]
           ⟨0, 0, 2⟩ ⟨500, 500⟩ 1).2 ↔
       (ct ∈ insertVisible [sampleLowerTile] [sampleVisibleTile] ∧
        (ct.key ∈ visibleKeysOf [sampleVisibleTile] ∨
         placeholderPred (visibleKeysOf [sampleVisibleTile])
           (layerCurrentLod [sampleVisibleTile]) ⟨0, 0, 2⟩ ⟨500, 500⟩ 1 ct = true))) ∧
     List.Sorted (fun a b : CachedTile => a.lod ≤ b.lod)
       (tilesToRender [sampleLowerTile] [sampleVisibleTile] ⟨0, 0, 2⟩ ⟨500, 500⟩ 1).1) :=
  ⟨by with_unfolding_all decide,
   tile_cache_reconciliation [sampleLowerTile] [sampleVisibleTile] ⟨0, 0, 2⟩ ⟨500, 500⟩ 1
     (by with_unfolding_all decide)⟩

-- ═════════════════════════════════════════════════════════════════════════
-- Stable zoom at the viewport centre (claim C4)
-- ═════════════════════════════════════════════════════════════════════════

/-- **C4.** Concrete stable-zoom scenario: a 1000×1000 world-unit document
in a 500×500 viewport (content wider than the viewport, so both centering
margins are 0), zooming from scale 1 to scale 2 anchored at the viewport
centre (screen offset (250, 250)).  The world point initially under
screen offset 250 on each axis (`w = 250 + scroll`) is again at screen
offset 250 after `adjustScrollForZoom`, within 1 unit (in fact exactly),
for every non-negative starting scroll position. -/
theorem stable_zoom_center_keeps_anchor (sl st a b : ℚ) (hsl : 0 ≤ sl) (hst : 0 ≤ st) :
    screenCoord a 0 1 sl (250 + sl) = a + 250 ∧
    screenCoord b 0 1 st (250 + st) = b + 250 ∧
    |screenCoord a 0 2
        (adjustScrollForZoom ⟨sl, st, 500, 500, 1000, a, b⟩ (some ⟨0, 1000⟩)
          ZoomMode.center 1 2 none).1 (250 + sl) - (a + 250)| ≤ 1 ∧
    |screenCoord b 0 2
        (adjustScrollForZoom ⟨sl, st, 500, 500, 1000, a, b⟩ (some ⟨0, 1000⟩)
          ZoomMode.center 1 2 none).2 (250 + st) - (b + 250)| ≤ 1 := by
  have hres : adjustScrollForZoom ⟨sl, st, 500, 500, 1000, a, b⟩ (some ⟨0, 1000⟩)
      ZoomMode.center 1 2 none = (2 * sl + 250, 2 * st + 250) := by
    unfold adjustScrollForZoom
    rw [if_neg (by decide)]
    norm_num
    constructor
    · rw [max_eq_right (by linarith)]
      ring
    · rw [max_eq_right (by linarith)]
      ring
  rw [hres]
  unfold screenCoord
  refine ⟨by ring, by ring, ?_, ?_⟩
  · have h1 : a + 0 + (250 + sl) * 2 - (2 * sl + 250) - (a + 250) = 0 := by ring
    rw [h1]
    norm_num
  · have h1 : b + 0 + (250 + st) * 2 - (2 * st + 250) - (b + 250) = 0 := by ring
    rw [h1]
    norm_num

/-- Witness for C4 at starting scroll position (100, 50) and container
rectangle corner (0, 0). -/
theorem stable_zoom_center_keeps_anchor_witness :
    ((0 : ℚ) ≤ 100 ∧ (0 : ℚ) ≤ 50) ∧
    (screenCoord 0 0 1 100 (250 + 100) = 0 + 250 ∧
     screenCoord 0 0 1 50 (250 + 50) = 0 + 250 ∧
     |screenCoord 0 0 2
         (adjustScrollForZoom ⟨100, 50, 500, 500, 1000, 0, 0⟩ (some ⟨0, 1000⟩)
           ZoomMode.center 1 2 none).1 (250 + 100) - (0 + 250)| ≤ 1 ∧
     |screenCoord 0 0 2
         (adjustScrollForZoom ⟨100, 50, 500, 500, 1000, 0, 0⟩ (some ⟨0, 1000⟩)
           ZoomMode.center 1 2 none).2 (250 + 50) - (0 + 250)| ≤ 1) :=
  ⟨⟨by with_unfolding_all decide, by with_unfolding_all decide⟩,
   stable_zoom_center_keeps_anchor 100 50 0 0
     (by with_unfolding_all decide) (by with_unfolding_all decide)⟩

end LuminaPDF
